import Mathlib

/-!
Verification development for the `fox` core library (crates/fox-core).

Rust strings are modelled as `List Char` (`Str`); byte offsets coincide with
character offsets on the ASCII inputs used throughout.  `HashMap` is modelled
as an association list with overwrite-on-insert.  Recursive procedures whose
Rust originals recurse on possibly-cyclic id graphs (tree walking, markdown
conversion) are modelled with an explicit fuel parameter returning `Option`:
`none` means the recursion depth exceeded the fuel, mirroring the unbounded
recursion of the source.  Pure string passes are modelled directly.
-/

/-- Rust `String` / `&str` as a list of characters. -/
abbrev Str := List Char

/-- Characters counted as whitespace by `str::trim` (ASCII fragment). -/
def isWs (c : Char) : Bool :=
  c = ' ' || c = '\n' || c = '\t' || c = '\r'

/-- Convert a Lean string literal to the `Str` model. -/
def strL (s : String) : Str := s.data

/-- The backquote character (inline-code marker). -/
def btick : Char := Char.ofNat 96

/-- `str::trim_start`: drop leading whitespace. -/
def trimL (s : Str) : Str := s.dropWhile isWs

/-- `str::trim_end`: drop trailing whitespace. -/
def trimR (s : Str) : Str := (s.reverse.dropWhile isWs).reverse

/-- `str::trim`: drop whitespace at both ends. -/
def trimStr (s : Str) : Str := trimR (trimL s)

/-- Does the string start with three newlines? -/
def startsNl3 : Str → Bool
  | '\n' :: '\n' :: '\n' :: _ => true
  | _ => false

/-- `s.contains("\n\n\n")` from the cleanup loops. -/
def contains3 : Str → Bool
  | [] => false
  | c :: rest => startsNl3 (c :: rest) || contains3 rest

/-- One pass of `str::replace("\n\n\n", "\n\n")` (left-to-right,
non-overlapping). -/
def collapse3 : Str → Str
  | '\n' :: '\n' :: '\n' :: rest => '\n' :: '\n' :: collapse3 rest
  | c :: rest => c :: collapse3 rest
  | [] => []

/-- The `while output.contains("\n\n\n")` replace loop, with enough fuel to
reach the fixed point (each pass strictly shrinks the string). -/
def collapseLoop : Nat → Str → Str
  | 0, s => s
  | fuel + 1, s => if contains3 s then collapseLoop fuel (collapse3 s) else s

/-- `MarkdownConverter::cleanup_output`'s newline-collapsing loop. -/
def cleanupCollapse (s : Str) : Str := collapseLoop (s.length + 1) s

/-- `MarkdownConverter::cleanup_output` (accessibility renderer):
collapse runs of 3+ newlines to 2, trim, ensure one trailing newline. -/
def cleanupOutput (s : Str) : Str :=
  let t := trimStr (cleanupCollapse s)
  if t = [] then t
  else if t.getLast? = some '\n' then t else t ++ ['\n']

/-- Regex `\n{3,}` → `"\n\n"` replacement: each maximal run of three or more
newlines becomes exactly two (single greedy pass). -/
def collapseRunsGo : Nat → Str → Str
  | 0, s => s
  | fuel + 1, '\n' :: '\n' :: '\n' :: rest =>
      '\n' :: '\n' :: collapseRunsGo fuel (rest.dropWhile (fun c => c = '\n'))
  | fuel + 1, c :: rest => c :: collapseRunsGo fuel rest
  | _ + 1, [] => []

/-- Regex `\n{3,}` → `"\n\n"` over a whole string. -/
def collapseRuns (s : Str) : Str := collapseRunsGo (s.length + 1) s

/-- `clean_markdown` (HTML renderer): collapse 3+ newline runs, trim,
ensure one trailing newline. -/
def cleanMarkdown (s : Str) : Str :=
  let t := trimStr (collapseRuns s)
  if t = [] then t
  else if t.getLast? = some '\n' then t else t ++ ['\n']

-- ===========================================================================
-- String toolkit lemmas
-- ===========================================================================

theorem contains3_cons (c : Char) (rest : Str) :
    contains3 (c :: rest) = (startsNl3 (c :: rest) || contains3 rest) := rfl

theorem contains3_tail_of_false {c : Char} {rest : Str}
    (h : contains3 (c :: rest) = false) : contains3 rest = false := by
  rw [contains3_cons] at h
  exact (Bool.or_eq_false_iff.mp h).2

theorem startsNl3_append_of_true {s : Str} (t : Str)
    (h : startsNl3 s = true) : startsNl3 (s ++ t) = true := by
  unfold startsNl3 at h
  split at h
  · rfl
  · exact absurd h (by simp)

/-- No 3-newline run in a concatenation implies none in the left part. -/
theorem contains3_left {a b : Str} (h : contains3 (a ++ b) = false) :
    contains3 a = false := by
  induction a with
  | nil => rfl
  | cons c rest ih =>
    rw [List.cons_append, contains3_cons] at h
    rcases Bool.or_eq_false_iff.mp h with ⟨h1, h2⟩
    rw [contains3_cons]
    refine Bool.or_eq_false_iff.mpr ⟨?_, ih h2⟩
    cases hs : startsNl3 (c :: rest) with
    | false => rfl
    | true =>
      have := startsNl3_append_of_true (s := c :: rest) b hs
      rw [List.cons_append] at this
      rw [this] at h1
      exact h1

/-- No 3-newline run in a concatenation implies none in the right part. -/
theorem contains3_right {a b : Str} (h : contains3 (a ++ b) = false) :
    contains3 b = false := by
  induction a with
  | nil => exact h
  | cons c rest ih =>
    rw [List.cons_append] at h
    exact ih (contains3_tail_of_false h)

theorem contains3_dropWhile {p : Char → Bool} {s : Str}
    (h : contains3 s = false) : contains3 (s.dropWhile p) = false := by
  induction s with
  | nil => exact h
  | cons c rest ih =>
    rw [List.dropWhile_cons]
    by_cases hp : p c
    · simp only [hp, if_true]
      exact ih (contains3_tail_of_false h)
    · simp only [hp, if_false]
      exact h

/-- `trimR s` is a left factor of `s`: the dropped whitespace is a suffix. -/
theorem trimR_factor (s : Str) :
    s = trimR s ++ (s.reverse.takeWhile isWs).reverse := by
  unfold trimR
  rw [← List.reverse_append, List.takeWhile_append_dropWhile, List.reverse_reverse]

theorem contains3_trimL {s : Str} (h : contains3 s = false) :
    contains3 (trimL s) = false :=
  contains3_dropWhile h

theorem contains3_trimR {s : Str} (h : contains3 s = false) :
    contains3 (trimR s) = false := by
  have hf := trimR_factor s
  rw [hf] at h
  exact contains3_left h

theorem contains3_trimStr {s : Str} (h : contains3 s = false) :
    contains3 (trimStr s) = false :=
  contains3_trimR (contains3_trimL h)

theorem collapse3_length_le (s : Str) : (collapse3 s).length ≤ s.length := by
  induction s using collapse3.induct with
  | case1 rest ih => rw [collapse3]; simp only [List.length_cons]; omega
  | case2 c rest h ih =>
    rw [collapse3.eq_def]
    split
    · next rest2 heq =>
      exfalso
      injection heq with h1 h2
      exact h rest2 h1 h2
    · next c' rest' heq =>
      injection heq with h1 h2
      subst h1
      subst h2
      simp only [List.length_cons]
      omega
    · next heq => exact absurd heq (by simp)
  | case3 => simp [collapse3]

theorem collapse3_length_lt {s : Str} (h : contains3 s = true) :
    (collapse3 s).length < s.length := by
  induction s using collapse3.induct with
  | case1 rest ih =>
    rw [collapse3]
    have := collapse3_length_le rest
    simp only [List.length_cons]
    omega
  | case2 c rest hne ih =>
    rw [contains3_cons] at h
    have hs : startsNl3 (c :: rest) = false := by
      cases hx : startsNl3 (c :: rest) with
      | false => rfl
      | true =>
        exfalso
        unfold startsNl3 at hx
        split at hx
        · next rest2 heq =>
          injection heq with h1 h2
          exact hne rest2 h1 h2
        · exact absurd hx (by simp)
    rw [hs, Bool.false_or] at h
    rw [collapse3.eq_def]
    split
    · next rest2 heq =>
      exfalso
      injection heq with h1 h2
      exact hne rest2 h1 h2
    · next c' rest' heq =>
      injection heq with h1 h2
      subst h1
      subst h2
      have := ih h
      simp only [List.length_cons]
      omega
    · next heq => exact absurd heq (by simp)
  | case3 => cases h

theorem collapseLoop_no3 : ∀ (f : Nat) (s : Str), s.length < f →
    contains3 (collapseLoop f s) = false := by
  intro f
  induction f with
  | zero => intro s h; omega
  | succ g ih =>
    intro s h
    rw [collapseLoop]
    cases hc : contains3 s with
    | true =>
      simp only [if_true]
      exact ih _ (by have := collapse3_length_lt hc; omega)
    | false =>
      simp only [Bool.false_eq_true, if_false]
      exact hc

theorem cleanupCollapse_no3 (s : Str) : contains3 (cleanupCollapse s) = false :=
  collapseLoop_no3 _ s (Nat.lt_succ_self _)

theorem collapseLoop_of_no3 (f : Nat) {s : Str} (h : contains3 s = false) :
    collapseLoop f s = s := by
  cases f with
  | zero => rfl
  | succ g => rw [collapseLoop, h]; simp

theorem cleanupCollapse_of_no3 {s : Str} (h : contains3 s = false) :
    cleanupCollapse s = s :=
  collapseLoop_of_no3 _ h

theorem startsNl3_shape {s : Str} (h : startsNl3 s = true) :
    ∃ rest, s = '\n' :: '\n' :: '\n' :: rest := by
  unfold startsNl3 at h
  split at h
  · next rest => exact ⟨rest, rfl⟩
  · exact absurd h (by simp)

theorem startsNl3_of_ne {c : Char} (r : Str) (h : c ≠ '\n') :
    startsNl3 (c :: r) = false := by
  cases hx : startsNl3 (c :: r) with
  | false => rfl
  | true =>
    rcases startsNl3_shape hx with ⟨rest, heq⟩
    injection heq with h1 h2
    exact absurd h1 h

theorem startsNl3_of_ne2 {c : Char} (r : Str) (h : c ≠ '\n') :
    startsNl3 ('\n' :: c :: r) = false := by
  cases hx : startsNl3 ('\n' :: c :: r) with
  | false => rfl
  | true =>
    rcases startsNl3_shape hx with ⟨rest, heq⟩
    injection heq with h1 h2
    injection h2 with h3 h4
    exact absurd h3 h

theorem startsNl3_of_ne3 {c : Char} (r : Str) (h : c ≠ '\n') :
    startsNl3 ('\n' :: '\n' :: c :: r) = false := by
  cases hx : startsNl3 ('\n' :: '\n' :: c :: r) with
  | false => rfl
  | true =>
    rcases startsNl3_shape hx with ⟨rest, heq⟩
    injection heq with h1 h2
    injection h2 with h3 h4
    injection h4 with h5 h6
    exact absurd h5 h

theorem collapseRunsGo_nil (f : Nat) : collapseRunsGo f [] = [] := by
  cases f <;> rfl

theorem collapseRunsGo_step (f : Nat) (c : Char) (rest : Str)
    (h : startsNl3 (c :: rest) = false) :
    collapseRunsGo f (c :: rest) = c :: collapseRunsGo (f - 1) rest := by
  cases f with
  | zero => rfl
  | succ g =>
    rw [collapseRunsGo.eq_def]
    split
    · next heq => exact absurd heq (by omega)
    · next hfu heq =>
      exfalso
      rw [heq, startsNl3] at h
      exact absurd h (by simp)
    · next hside hfu heq =>
      injection heq with h1 h2
      subst h1
      subst h2
      congr 2
      omega
    · next hfu heq => exact absurd heq (by simp)

theorem dropWhile_head_not {p : Char → Bool} {l : Str} {c : Char}
    (h : (l.dropWhile p).head? = some c) : p c = false := by
  induction l with
  | nil => cases h
  | cons d ds ih =>
    rw [List.dropWhile_cons] at h
    by_cases hp : p d
    · rw [if_pos hp] at h
      exact ih h
    · rw [if_neg hp] at h
      simp only [List.head?_cons, Option.some.injEq] at h
      subst h
      exact Bool.of_not_eq_true hp

theorem collapseRunsGo_run (g : Nat) (rest : Str) :
    collapseRunsGo (g + 1) ('\n' :: '\n' :: '\n' :: rest)
      = '\n' :: '\n' :: collapseRunsGo g (rest.dropWhile (fun c => c = '\n')) := rfl

theorem contains3_nl2_cons {Y : Str}
    (hY : contains3 Y = false)
    (hhead : Y = [] ∨ ∃ d T, Y = d :: T ∧ d ≠ '\n') :
    contains3 ('\n' :: '\n' :: Y) = false := by
  rcases hhead with rfl | ⟨d, T, rfl, hd⟩
  · decide
  · rw [contains3_cons, contains3_cons, hY,
      startsNl3_of_ne3 T hd, startsNl3_of_ne2 T hd]
    simp

theorem dropWhile_length_le (p : Char → Bool) (l : Str) :
    (l.dropWhile p).length ≤ l.length := by
  induction l with
  | nil => simp
  | cons c rest ih =>
    rw [List.dropWhile_cons]
    by_cases hp : p c
    · rw [if_pos hp]
      simp only [List.length_cons]
      omega
    · rw [if_neg hp]

theorem collapseRunsGo_no3_aux :
    ∀ (n : Nat) (s : Str) (f : Nat), s.length ≤ n → s.length ≤ f →
      contains3 (collapseRunsGo f s) = false := by
  intro n
  induction n with
  | zero =>
    intro s f h1 _
    have hs : s = [] := List.length_eq_zero.mp (Nat.le_zero.mp h1)
    subst hs
    rw [collapseRunsGo_nil]
    rfl
  | succ m ih =>
    intro s f h1 h2
    cases hs3 : startsNl3 s with
    | true =>
      rcases startsNl3_shape hs3 with ⟨rest, rfl⟩
      simp only [List.length_cons] at h1 h2
      cases f with
      | zero => omega
      | succ g =>
        rw [collapseRunsGo_run]
        have hdl : (rest.dropWhile (fun c => c = '\n')).length ≤ rest.length :=
          dropWhile_length_le _ rest
        have hX : contains3
            (collapseRunsGo g (rest.dropWhile (fun c => c = '\n'))) = false :=
          ih _ g (by omega) (by omega)
        apply contains3_nl2_cons hX
        cases hXs : rest.dropWhile (fun c => c = '\n') with
        | nil =>
          left
          exact collapseRunsGo_nil g
        | cons d ds =>
          right
          have hd : d ≠ '\n' := by
            have hh := dropWhile_head_not (p := fun c => decide (c = '\n'))
              (l := rest) (c := d) (by rw [hXs]; rfl)
            exact of_decide_eq_false hh
          refine ⟨d, collapseRunsGo (g - 1) ds, ?_, hd⟩
          rw [collapseRunsGo_step g d ds (startsNl3_of_ne ds hd)]
    | false =>
      cases s with
      | nil =>
        rw [collapseRunsGo_nil]
        rfl
      | cons c rest =>
        rw [collapseRunsGo_step f c rest hs3]
        simp only [List.length_cons] at h1 h2
        have hZ : contains3 (collapseRunsGo (f - 1) rest) = false :=
          ih rest (f - 1) (by omega) (by omega)
        rw [contains3_cons, hZ]
        simp only [Bool.or_false]
        by_cases hc : c = '\n'
        · subst hc
          cases rest with
          | nil =>
            rw [collapseRunsGo_nil]
            decide
          | cons d ds =>
            by_cases hd : d = '\n'
            · subst hd
              cases ds with
              | nil =>
                rw [collapseRunsGo_step (f - 1) '\n' [] (by decide)]
                rw [collapseRunsGo_nil]
                decide
              | cons e es =>
                have he : e ≠ '\n' := by
                  intro hee
                  subst hee
                  rw [show startsNl3 ('\n' :: '\n' :: '\n' :: es) = true from rfl]
                    at hs3
                  cases hs3
                rw [collapseRunsGo_step (f - 1) '\n' (e :: es)
                  (startsNl3_of_ne2 es he)]
                rw [collapseRunsGo_step (f - 1 - 1) e es (startsNl3_of_ne es he)]
                exact startsNl3_of_ne3 _ he
            · rw [collapseRunsGo_step (f - 1) d ds (startsNl3_of_ne ds hd)]
              exact startsNl3_of_ne2 _ hd
        · exact startsNl3_of_ne _ hc

theorem collapseRuns_no3 (s : Str) : contains3 (collapseRuns s) = false :=
  collapseRunsGo_no3_aux s.length s (s.length + 1) (Nat.le_refl _)
    (Nat.le_succ _)

theorem collapseRunsGo_of_no3 :
    ∀ (n : Nat) (s : Str) (f : Nat), s.length ≤ n → contains3 s = false →
      collapseRunsGo f s = s := by
  intro n
  induction n with
  | zero =>
    intro s f h1 _
    have hs : s = [] := List.length_eq_zero.mp (Nat.le_zero.mp h1)
    subst hs
    exact collapseRunsGo_nil f
  | succ m ih =>
    intro s f h1 hno
    cases s with
    | nil => exact collapseRunsGo_nil f
    | cons c rest =>
      have hs3 : startsNl3 (c :: rest) = false := by
        cases hx : startsNl3 (c :: rest) with
        | false => rfl
        | true =>
          rw [contains3_cons, hx] at hno
          cases hno
      rw [collapseRunsGo_step f c rest hs3]
      simp only [List.length_cons] at h1
      rw [ih rest (f - 1) (by omega) (contains3_tail_of_false hno)]

theorem collapseRuns_of_no3 {s : Str} (h : contains3 s = false) :
    collapseRuns s = s :=
  collapseRunsGo_of_no3 s.length s _ (Nat.le_refl _) h

theorem startsNl3_one (c : Char) : startsNl3 [c] = false := by
  cases hx : startsNl3 [c] with
  | false => rfl
  | true =>
    rcases startsNl3_shape hx with ⟨rest, heq⟩
    injection heq with h1 h2
    cases h2

theorem startsNl3_two (c d : Char) : startsNl3 [c, d] = false := by
  cases hx : startsNl3 [c, d] with
  | false => rfl
  | true =>
    rcases startsNl3_shape hx with ⟨rest, heq⟩
    injection heq with h1 h2
    injection h2 with h3 h4
    cases h4

theorem trimL_head_not {s : Str} {c : Char} (h : (trimL s).head? = some c) :
    isWs c = false :=
  dropWhile_head_not h

theorem trimR_getLast_not {s : Str} {c : Char}
    (h : (trimR s).getLast? = some c) : isWs c = false := by
  unfold trimR at h
  rw [List.getLast?_reverse] at h
  exact dropWhile_head_not h

theorem trimStr_getLast_not {s : Str} {c : Char}
    (h : (trimStr s).getLast? = some c) : isWs c = false :=
  trimR_getLast_not h

theorem trimR_head? {s : Str} (h : trimR s ≠ []) :
    (trimR s).head? = s.head? := by
  have hf := trimR_factor s
  conv_rhs => rw [hf]
  rw [List.head?_append]
  cases hx : (trimR s).head? with
  | none => exact absurd (List.head?_eq_none_iff.mp hx) h
  | some c => rfl

theorem trimStr_head_not {s : Str} {c : Char}
    (h : (trimStr s).head? = some c) : isWs c = false := by
  unfold trimStr at h
  by_cases hn : trimR (trimL s) = []
  · rw [hn] at h
    cases h
  · rw [trimR_head? hn] at h
    exact trimL_head_not h

theorem trimL_eq_of_head {s : Str} {c : Char} (h1 : s.head? = some c)
    (h2 : isWs c = false) : trimL s = s := by
  cases s with
  | nil => rfl
  | cons d rest =>
    simp only [List.head?_cons, Option.some.injEq] at h1
    subst h1
    unfold trimL
    rw [List.dropWhile_cons, h2]
    simp

theorem trimR_eq_of_getLast {s : Str} {c : Char} (h1 : s.getLast? = some c)
    (h2 : isWs c = false) : trimR s = s := by
  unfold trimR
  rw [← List.head?_reverse] at h1
  cases hr : s.reverse with
  | nil => rw [hr] at h1; cases h1
  | cons d rest =>
    rw [hr] at h1
    simp only [List.head?_cons, Option.some.injEq] at h1
    subst h1
    rw [List.dropWhile_cons, h2]
    simp only [Bool.false_eq_true, if_false]
    rw [← hr, List.reverse_reverse]

theorem dropWhile_append_all {p : Char → Bool} {a : Str} (b : Str)
    (h : ∀ c ∈ a, p c = true) : (a ++ b).dropWhile p = b.dropWhile p := by
  induction a with
  | nil => rfl
  | cons d ds ih =>
    rw [List.cons_append, List.dropWhile_cons, h d (by simp)]
    simp only [if_true]
    exact ih (fun c hc => h c (by simp [hc]))

theorem trimR_append_ws {t : Str} (u : Str) (h : ∀ c ∈ u, isWs c = true) :
    trimR (t ++ u) = trimR t := by
  unfold trimR
  rw [List.reverse_append]
  rw [dropWhile_append_all t.reverse (fun c hc => h c (List.mem_reverse.mp hc))]

/-- Appending one newline to a string with no 3-newline run whose last
character is not a newline keeps it free of 3-newline runs. -/
theorem contains3_append_nl : ∀ (t : Str) (c : Char),
    contains3 t = false → t.getLast? = some c → c ≠ '\n' →
    contains3 (t ++ ['\n']) = false := by
  intro t
  induction t with
  | nil => intro c _ h2 _; cases h2
  | cons d ds ih =>
    intro c h1 h2 h3
    cases ds with
    | nil =>
      rw [List.cons_append, List.nil_append, contains3_cons,
        startsNl3_two d '\n', contains3_cons, startsNl3_one '\n']
      rfl
    | cons e es =>
      rw [List.getLast?_cons_cons] at h2
      have hrec : contains3 ((e :: es) ++ ['\n']) = false :=
        ih c (contains3_tail_of_false h1) h2 h3
      rw [List.cons_append, contains3_cons, hrec]
      simp only [Bool.or_false]
      cases hx : startsNl3 (d :: ((e :: es) ++ ['\n'])) with
      | false => rfl
      | true =>
        exfalso
        rcases startsNl3_shape hx with ⟨rest, heq⟩
        injection heq with hd hrest
        subst hd
        injection hrest with he hrest2
        subst he
        cases es with
        | nil =>
          rw [List.getLast?_singleton, Option.some.injEq] at h2
          exact h3 h2.symm
        | cons g gs =>
          injection hrest2 with hg hrest3
          subst hg
          rw [contains3_cons] at h1
          rw [show startsNl3 ('\n' :: '\n' :: '\n' :: gs) = true from rfl] at h1
          exact absurd h1 (by simp)

theorem ne_nl_of_not_ws {c : Char} (h : isWs c = false) : c ≠ '\n' := by
  intro he
  subst he
  exact absurd h (by decide)

theorem exists_getLast {t : Str} (h : t ≠ []) : ∃ c, t.getLast? = some c := by
  cases hx : t.getLast? with
  | none => exact absurd (List.getLast?_eq_none_iff.mp hx) h
  | some c => exact ⟨c, rfl⟩

theorem exists_head {t : Str} (h : t ≠ []) : ∃ c, t.head? = some c := by
  cases t with
  | nil => exact absurd rfl h
  | cons d ds => exact ⟨d, rfl⟩

theorem finish_eval {T : Str} (hne : T ≠ []) {c : Char} (hc : T.getLast? = some c)
    (hcn : c ≠ '\n') :
    (if T = [] then T
     else if T.getLast? = some '\n' then T else T ++ ['\n']) = T ++ ['\n'] := by
  rw [if_neg hne, if_neg]
  rw [hc]
  intro hx
  exact hcn (Option.some.injEq _ _ ▸ hx)

theorem head?_append_left {t : Str} (u : Str) (h : t ≠ []) :
    (t ++ u).head? = t.head? := by
  cases t with
  | nil => exact absurd rfl h
  | cons d ds => rfl

/-- Idempotence of the accessibility renderer's cleanup pass. -/
theorem cleanupOutput_idem (s : Str) :
    cleanupOutput (cleanupOutput s) = cleanupOutput s := by
  have hno3 : contains3 (trimStr (cleanupCollapse s)) = false :=
    contains3_trimStr (cleanupCollapse_no3 s)
  by_cases ht : trimStr (cleanupCollapse s) = []
  · have h0 : cleanupOutput s = [] := by
      simp only [cleanupOutput]
      rw [if_pos ht, ht]
    rw [h0]
    rfl
  · obtain ⟨c, hc⟩ := exists_getLast ht
    have hcw : isWs c = false := trimStr_getLast_not hc
    have hcn : c ≠ '\n' := ne_nl_of_not_ws hcw
    obtain ⟨d, hd⟩ := exists_head ht
    have hdw : isWs d = false := trimStr_head_not hd
    have h0 : cleanupOutput s = trimStr (cleanupCollapse s) ++ ['\n'] := by
      simp only [cleanupOutput]
      exact finish_eval ht hc hcn
    rw [h0]
    -- now show one more cleanup round leaves `t ++ ['\n']` unchanged
    have hno3' : contains3 (trimStr (cleanupCollapse s) ++ ['\n']) = false :=
      contains3_append_nl _ c hno3 hc hcn
    have hcc : cleanupCollapse (trimStr (cleanupCollapse s) ++ ['\n'])
        = trimStr (cleanupCollapse s) ++ ['\n'] :=
      cleanupCollapse_of_no3 hno3'
    have htl : trimL (trimStr (cleanupCollapse s) ++ ['\n'])
        = trimStr (cleanupCollapse s) ++ ['\n'] :=
      trimL_eq_of_head (by rw [head?_append_left _ ht]; exact hd) hdw
    have htr : trimStr (trimStr (cleanupCollapse s) ++ ['\n'])
        = trimStr (cleanupCollapse s) := by
      have e1 : trimStr (trimStr (cleanupCollapse s) ++ ['\n'])
          = trimR (trimL (trimStr (cleanupCollapse s) ++ ['\n'])) := rfl
      rw [e1, htl]
      rw [trimR_append_ws ['\n'] (by intro x hx; simp at hx; subst hx; decide)]
      exact trimR_eq_of_getLast hc hcw
    simp only [cleanupOutput]
    rw [hcc, htr]
    exact finish_eval ht hc hcn

/-- Idempotence of the HTML renderer's cleanup pass. -/
theorem cleanMarkdown_idem (s : Str) :
    cleanMarkdown (cleanMarkdown s) = cleanMarkdown s := by
  have hno3 : contains3 (trimStr (collapseRuns s)) = false :=
    contains3_trimStr (collapseRuns_no3 s)
  by_cases ht : trimStr (collapseRuns s) = []
  · have h0 : cleanMarkdown s = [] := by
      simp only [cleanMarkdown]
      rw [if_pos ht, ht]
    rw [h0]
    rfl
  · obtain ⟨c, hc⟩ := exists_getLast ht
    have hcw : isWs c = false := trimStr_getLast_not hc
    have hcn : c ≠ '\n' := ne_nl_of_not_ws hcw
    obtain ⟨d, hd⟩ := exists_head ht
    have hdw : isWs d = false := trimStr_head_not hd
    have h0 : cleanMarkdown s = trimStr (collapseRuns s) ++ ['\n'] := by
      simp only [cleanMarkdown]
      exact finish_eval ht hc hcn
    rw [h0]
    have hno3' : contains3 (trimStr (collapseRuns s) ++ ['\n']) = false :=
      contains3_append_nl _ c hno3 hc hcn
    have hcc : collapseRuns (trimStr (collapseRuns s) ++ ['\n'])
        = trimStr (collapseRuns s) ++ ['\n'] :=
      collapseRuns_of_no3 hno3'
    have htl : trimL (trimStr (collapseRuns s) ++ ['\n'])
        = trimStr (collapseRuns s) ++ ['\n'] :=
      trimL_eq_of_head (by rw [head?_append_left _ ht]; exact hd) hdw
    have htr : trimStr (trimStr (collapseRuns s) ++ ['\n'])
        = trimStr (collapseRuns s) := by
      have e1 : trimStr (trimStr (collapseRuns s) ++ ['\n'])
          = trimR (trimL (trimStr (collapseRuns s) ++ ['\n'])) := rfl
      rw [e1, htl]
      rw [trimR_append_ws ['\n'] (by intro x hx; simp at hx; subst hx; decide)]
      exact trimR_eq_of_getLast hc hcw
    simp only [cleanMarkdown]
    rw [hcc, htr]
    exact finish_eval ht hc hcn

-- ===========================================================================
-- Accessibility tree model (crates/fox-core/src/accessibility.rs)
-- ===========================================================================

/-- `crate::Link` (lib.rs): display text, URL, character offset into the
markdown buffer recorded at emission time. -/
structure Link where
  text : Str
  url : Str
  position : Nat
deriving DecidableEq

/-- `AXNode`: one accessibility-tree node as captured from the CDP snapshot. -/
structure AXNode where
  nodeId : String
  role : String
  name : Option Str
  value : Option Str
  description : Option Str
  level : Option Int
  url : Option Str
  focused : Bool
  ignored : Bool
  childIds : List String
  properties : List (String × Str)
deriving DecidableEq

/-- `AXTree`: nodes indexed by id (HashMap modelled as an association list)
plus an optional root id. -/
structure AXTree where
  nodes : List (String × AXNode)
  rootId : Option String
deriving DecidableEq

/-- `AXTree::get`. -/
def AXTree.get (t : AXTree) (id : String) : Option AXNode :=
  (t.nodes.find? (fun p => p.1 = id)).map (fun p => p.2)

/-- `AXTree::root`. -/
def AXTree.rootNode (t : AXTree) : Option AXNode :=
  t.rootId.bind t.get

/-- `AXTree::children`: resolve child ids, silently dropping dangling ones. -/
def AXTree.childrenOf (t : AXTree) (n : AXNode) : List AXNode :=
  n.childIds.filterMap t.get

/-- Sequential state-threading over a list of nodes; `none` propagates. -/
def convertListF {σ ν : Type} (step : σ → ν → Option σ) : σ → List ν → Option σ
  | st, [] => some st
  | st, n :: ns =>
    match step st n with
    | none => none
    | some st2 => convertListF step st2 ns

/-- `AXTree::walk_recursive`, with fuel bounding the recursion depth:
`none` means the depth exceeded the fuel (the Rust recursion would still be
descending — in particular it never returns on a cyclic id graph). -/
def walkNodeF (t : AXTree) : Nat → AXNode → Nat → Option (List (AXNode × Nat))
  | 0, _, _ => none
  | fuel + 1, node, depth =>
    (t.childrenOf node).foldl
      (fun acc child =>
        match acc, walkNodeF t fuel child (depth + 1) with
        | some l, some l2 => some (l ++ l2)
        | _, _ => none)
      (some [(node, depth)])

/-- `AXTree::walk`: visit sequence of `(node, depth)` pairs in visit order. -/
def axWalkF (t : AXTree) (fuel : Nat) : Option (List (AXNode × Nat)) :=
  match t.rootNode with
  | none => some []
  | some root => walkNodeF t fuel root 0

/-- `DepthFirstIterator::next`: pop an id; a dangling id makes `next` return
`None` (the `?` on `self.tree.nodes.get(id)`), ending the iteration. -/
def dfiNext (t : AXTree) : List String → Option (AXNode × List String)
  | [] => none
  | id :: rest =>
    match t.get id with
    | none => none
    | some node => some (node, node.childIds ++ rest)

/-- `DepthFirstIterator::new`: initial stack from the root id. -/
def dfiInit (t : AXTree) : List String :=
  match t.rootId with
  | some id => [id]
  | none => []

/-- Collect the iterator's yields (fuel bounds the number of steps). -/
def dfiCollect (t : AXTree) : Nat → List String → List AXNode
  | 0, _ => []
  | fuel + 1, stack =>
    match dfiNext t stack with
    | none => []
    | some (node, stack2) => node :: dfiCollect t fuel stack2

/-- `AXTree::iter_depth_first` collected to a list. -/
def iterDepthFirst (t : AXTree) (fuel : Nat) : List AXNode :=
  dfiCollect t fuel (dfiInit t)

-- ===========================================================================
-- AX tree → Markdown conversion (MarkdownConverter in accessibility.rs)
-- ===========================================================================

/-- Mutable converter state (output buffer, links, list bookkeeping).
`listCounters` keeps the innermost counter at the head (the Rust `Vec` keeps
it at the end; push/pop/last_mut become cons/tail/head here). -/
structure AxSt where
  out : Str
  links : List Link
  listDepth : Nat
  listCounters : List Nat
  inCodeBlock : Bool
  lastWasBlock : Bool
deriving DecidableEq

/-- Initial converter state. -/
def axSt0 : AxSt :=
  { out := [], links := [], listDepth := 0, listCounters := [],
    inCodeBlock := false, lastWasBlock := false }

/-- `output.ends_with("\n\n")`. -/
def endsNlNl (s : Str) : Bool :=
  match s.reverse with
  | '\n' :: '\n' :: _ => true
  | _ => false

/-- `MarkdownConverter::ensure_block_spacing` on the output buffer. -/
def ebsOut (out : Str) (lastWasBlock : Bool) : Str :=
  if out.isEmpty || lastWasBlock then out
  else if endsNlNl out then out
  else if out.getLast? = some '\n' then out ++ ['\n']
  else out ++ ['\n', '\n']

/-- `ensure_block_spacing` on the whole state. -/
def ebs (st : AxSt) : AxSt := { st with out := ebsOut st.out st.lastWasBlock }

/-- `node.properties.get(key)` (HashMap lookup). -/
def propGet (node : AXNode) (key : String) : Option Str :=
  (node.properties.find? (fun p => p.1 = key)).map (fun p => p.2)

/-- `i64 as usize` on a 64-bit target. -/
def usizeOfInt (i : Int) : Nat := (i % (2 ^ 64)).toNat

/-- `"s".repeat(n)`. -/
def repChars (s : Str) (n : Nat) : Str := (List.replicate n s).flatten

/-- Decimal rendering of a counter for `format!("{}. ", num)`. -/
def numStr (n : Nat) : Str := (toString n).data

/-- `str::lines` helper: strip one `'\r'` from a reversed accumulator. -/
def stripCrRev (acc : Str) : Str :=
  match acc with
  | '\r' :: r => r
  | _ => acc

/-- `str::lines` accumulator loop (`acc` holds the current line reversed). -/
def linesGo : Str → Str → List Str
  | acc, [] => if acc = [] then [] else [acc.reverse]
  | acc, '\n' :: rest => (stripCrRev acc).reverse :: linesGo [] rest
  | acc, c :: rest => linesGo (c :: acc) rest

/-- `str::lines` collected to a list. -/
def linesOf (s : Str) : List Str := linesGo [] s

/-- `collect_text`: gather text from `StaticText` descendants, stopping at
`InlineTextBox`; fuel bounds recursion depth. -/
def collectTextF (t : AXTree) : Nat → AXNode → Option Str
  | 0, _ => none
  | fuel + 1, node =>
    if node.role = "StaticText" then some (node.name.getD [])
    else if node.role = "InlineTextBox" then some []
    else
      (t.childrenOf node).foldl
        (fun acc child =>
          match acc, collectTextF t fuel child with
          | some s, some s2 => some (s ++ s2)
          | _, _ => none)
        (some [])

/-- Is the accessible name non-blank after trimming? -/
def nameNonBlank (node : AXNode) : Bool :=
  match node.name with
  | some nm => decide (trimStr nm ≠ [])
  | none => false

/-- `MarkdownConverter::get_node_text`: outer `none` is fuel exhaustion,
`some none` is "no text". -/
def getNodeTextF (t : AXTree) (fuel : Nat) (node : AXNode) : Option (Option Str) :=
  if nameNonBlank node then some node.name
  else
    match collectTextF t fuel node with
    | none => none
    | some txt => if trimStr txt = [] then some none else some (some txt)

/-- Roles skipped but whose children are still visited. -/
def shouldSkipButRecurse (node : AXNode) : Bool :=
  node.role = "none" || node.role = "presentation" || node.role = "generic"

/-- Roles (or ignored nodes) skipped entirely. -/
def shouldSkipNode (node : AXNode) : Bool :=
  node.ignored || node.role = "LineBreak" || node.role = "InlineTextBox"

/-- Does a table row contain a header cell? -/
def rowIsHeader (t : AXTree) (rowNode : AXNode) : Bool :=
  (t.childrenOf rowNode).any
    (fun c => c.role = "columnheader" || c.role = "rowheader")

/-- Cells of a table row. -/
def rowCellNodes (t : AXTree) (rowNode : AXNode) : List AXNode :=
  (t.childrenOf rowNode).filter
    (fun c => c.role = "cell" || c.role = "columnheader"
      || c.role = "rowheader" || c.role = "gridcell")

/-- Map `get_node_text(..).unwrap_or_default()` over cell nodes. -/
def mapTexts (t : AXTree) (fuel : Nat) : List AXNode → Option (List Str)
  | [] => some []
  | n :: ns =>
    match getNodeTextF t fuel n, mapTexts t fuel ns with
    | some txt, some rest => some (txt.getD [] :: rest)
    | _, _ => none

/-- Append one row's cells, recording the first header row index. -/
def addRow (t : AXTree) (fuel : Nat)
    (acc : Option (List (List Str) × Option Nat)) (rowNode : AXNode) :
    Option (List (List Str) × Option Nat) :=
  match acc with
  | none => none
  | some (rows, hr) =>
    match mapTexts t fuel (rowCellNodes t rowNode) with
    | none => none
    | some cells =>
      let hr2 := if rowIsHeader t rowNode && hr.isNone
        then some rows.length else hr
      some (rows ++ [cells], hr2)

/-- Row collection over the table's children (`row` directly, rows inside
`rowgroup` children). -/
def collectRowsAX (t : AXTree) (fuel : Nat) (tableNode : AXNode) :
    Option (List (List Str) × Option Nat) :=
  (t.childrenOf tableNode).foldl
    (fun acc child =>
      if child.role = "row" then addRow t fuel acc child
      else if child.role = "rowgroup" then
        (t.childrenOf child).foldl
          (fun acc2 rc => if rc.role = "row" then addRow t fuel acc2 rc else acc2)
          acc
      else acc)
    (some ([], none))

/-- `rows.iter().map(|r| r.len()).max().unwrap_or(0)`. -/
def numColsOf (rows : List (List Str)) : Nat :=
  (rows.map List.length).foldl max 0

/-- One pass of the width-update loop for a single row. -/
def updWidths : List Nat → List Str → List Nat
  | ws, [] => ws
  | [], _ => []
  | w :: ws, cell :: cells => max w cell.length :: updWidths ws cells

/-- Column widths: start at the minimum 3, widen per cell. -/
def colWidthsOf (rows : List (List Str)) (numCols : Nat) : List Nat :=
  rows.foldl updWidths (List.replicate numCols 3)

/-- `format!("{:width$}", cell)`: left-aligned, space-padded to `w`. -/
def padCell (cell : Str) (w : Nat) : Str :=
  cell ++ List.replicate (w - cell.length) ' '

/-- Present cells of a row, zipped against the column widths
(`unwrap_or(3)` when the widths run out, which cannot happen here). -/
def axCells : List Str → List Nat → Str
  | [], _ => []
  | cell :: cs, w :: ws => ((' ' :: padCell cell w) ++ strL " |") ++ axCells cs ws
  | cell :: cs, [] => ((' ' :: padCell cell 3) ++ strL " |") ++ axCells cs []

/-- Padding for the missing cells (`row.len()..num_cols`). -/
def axMissing (restWidths : List Nat) : Str :=
  (restWidths.map (fun w => (' ' :: List.replicate w ' ') ++ strL " |")).flatten

/-- One emitted table row (accessibility renderer). -/
def axDataLine (widths : List Nat) (row : List Str) : Str :=
  '|' :: (axCells row widths ++ axMissing (widths.drop row.length))

/-- The `---` separator row. -/
def sepLine (widths : List Nat) : Str :=
  '|' :: (widths.map (fun w => (' ' :: List.replicate w '-') ++ strL " |")).flatten

/-- The emitted lines of a table, separator included. -/
def axTableLinesGo (widths : List Nat) (headerRow : Option Nat) :
    Nat → List (List Str) → List Str
  | _, [] => []
  | idx, row :: rest =>
    let line := axDataLine widths row
    let withSep :=
      if headerRow = some idx || (headerRow.isNone && idx = 0)
      then [line, sepLine widths]
      else [line]
    withSep ++ axTableLinesGo widths headerRow (idx + 1) rest

/-- All emitted lines of `MarkdownConverter::convert_table` given collected
rows and the header row index. -/
def axTableLines (rows : List (List Str)) (headerRow : Option Nat) : List Str :=
  axTableLinesGo (colWidthsOf rows (numColsOf rows)) headerRow 0 rows

/-- `MarkdownConverter::convert_table` rendering, as the appended text. -/
def axRenderTable (rows : List (List Str)) (headerRow : Option Nat) : Str :=
  if rows.isEmpty then []
  else ((axTableLines rows headerRow).map (fun l => l ++ ['\n'])).flatten

/-- `MarkdownConverter::convert_node`, fuelled: `none` means the recursion
depth (or a text-collection recursion) exceeded the fuel.  Children are
processed left to right threading the state. -/
def convertNodeF (t : AXTree) : Nat → AxSt → AXNode → Option AxSt
  | 0, _, _ => none
  | fuel + 1, st, node =>
    if shouldSkipButRecurse node then
      convertListF (convertNodeF t fuel) st (t.childrenOf node)
    else if shouldSkipNode node then some st
    else
      match node.role with
      | "RootWebArea" | "WebArea" | "document" =>
        convertListF (convertNodeF t fuel) st (t.childrenOf node)
      | "heading" =>
        let st1 := ebs st
        let lvl := usizeOfInt (min (node.level.getD 1) 6)
        match getNodeTextF t fuel node with
        | none => none
        | some none => some st1
        | some (some txt) =>
          some { st1 with
            out := st1.out ++ List.replicate lvl '#' ++ [' '] ++ txt
              ++ strL "\n\n",
            lastWasBlock := true }
      | "paragraph" =>
        if (t.childrenOf node).any (fun c =>
            c.role = "link" || c.role = "strong" || c.role = "emphasis"
              || c.role = "code" || c.role = "image") then
          match convertListF (convertNodeF t fuel) (ebs st) (t.childrenOf node) with
          | none => none
          | some st2 =>
            some { st2 with out := st2.out ++ strL "\n\n", lastWasBlock := true }
        else
          match getNodeTextF t fuel node with
          | none => none
          | some none => some st
          | some (some txt) =>
            if trimStr txt = [] then some st
            else
              let st1 := ebs st
              some { st1 with
                out := st1.out ++ txt ++ strL "\n\n",
                lastWasBlock := true }
      | "link" =>
        match getNodeTextF t fuel node with
        | none => none
        | some txtOpt =>
          let txt := txtOpt.getD []
          let url := node.url.getD (strL "#")
          if txt.isEmpty then some st
          else
            some { st with
              out := st.out ++ ['['] ++ txt ++ strL "](" ++ url ++ [')'],
              links := st.links
                ++ [{ text := txt, url := url, position := st.out.length }] }
      | "list" =>
        let st1 := ebs st
        let st2 := { st1 with
          listDepth := st1.listDepth + 1,
          listCounters := 0 :: st1.listCounters }
        match convertListF (convertNodeF t fuel) st2 (t.childrenOf node) with
        | none => none
        | some st3 =>
          let st4 := { st3 with
            listCounters := st3.listCounters.tail,
            listDepth := st3.listDepth - 1 }
          if st4.listDepth = 0 then
            some { st4 with out := st4.out ++ ['\n'], lastWasBlock := true }
          else some st4
      | "listitem" =>
        let indent := repChars (strL "  ") (st.listDepth - 1)
        let counters :=
          match st.listCounters with
          | c :: rest => (c + 1) :: rest
          | [] => []
        let isOrdered := (propGet node "SetSize").isSome
          || (propGet node "PosInSet").isSome
        let num := counters.headD 1
        let marker := if isOrdered then numStr num ++ strL ". " else strL "- "
        let st1 := { st with
          listCounters := counters,
          out := st.out ++ indent ++ marker }
        match getNodeTextF t fuel node with
        | none => none
        | some (some txt) =>
          some { st1 with out := st1.out ++ txt ++ ['\n'] }
        | some none =>
          match convertListF (convertNodeF t fuel) st1 (t.childrenOf node) with
          | none => none
          | some st2 => some { st2 with out := st2.out ++ ['\n'] }
      | "blockquote" =>
        let st1 := ebs st
        match getNodeTextF t fuel node with
        | none => none
        | some txtOpt =>
          let txt := txtOpt.getD []
          let quoted := ((linesOf txt).map
            (fun l => strL "> " ++ l ++ ['\n'])).flatten
          some { st1 with
            out := st1.out ++ quoted ++ ['\n'],
            lastWasBlock := true }
      | "code" | "pre" =>
        if st.inCodeBlock then
          match getNodeTextF t fuel node with
          | none => none
          | some txtOpt => some { st with out := st.out ++ txtOpt.getD [] }
        else
          match getNodeTextF t fuel node with
          | none => none
          | some txtOpt =>
            let txt := txtOpt.getD []
            if txt.contains '\n' then
              let st1 := ebs st
              some { st1 with
                out := st1.out ++ strL "```\n" ++ txt
                  ++ (if txt.getLast? = some '\n' then [] else ['\n'])
                  ++ strL "```\n\n",
                inCodeBlock := false,
                lastWasBlock := true }
            else
              some { st with out := st.out ++ [btick] ++ txt ++ [btick] }
      | "image" | "img" =>
        let alt := node.name.getD (strL "image")
        let src := node.url.getD []
        if src.isEmpty then some st
        else
          some { st with
            out := st.out ++ strL "![" ++ alt ++ strL "](" ++ src ++ [')'] }
      | "table" =>
        let st1 := ebs st
        match collectRowsAX t fuel node with
        | none => none
        | some (rows, hr) =>
          some { st1 with
            out := st1.out ++ axRenderTable rows hr ++ ['\n'],
            lastWasBlock := true }
      | "separator" =>
        let st1 := ebs st
        some { st1 with out := st1.out ++ strL "---\n\n", lastWasBlock := true }
      | "strong" =>
        match getNodeTextF t fuel node with
        | none => none
        | some (some txt) =>
          some { st with out := st.out ++ strL "**" ++ txt ++ strL "**" }
        | some none =>
          let st1 := { st with out := st.out ++ strL "**" }
          match convertListF (convertNodeF t fuel) st1 (t.childrenOf node) with
          | none => none
          | some st2 => some { st2 with out := st2.out ++ strL "**" }
      | "emphasis" =>
        match getNodeTextF t fuel node with
        | none => none
        | some (some txt) =>
          some { st with out := st.out ++ ['*'] ++ txt ++ ['*'] }
        | some none =>
          let st1 := { st with out := st.out ++ ['*'] }
          match convertListF (convertNodeF t fuel) st1 (t.childrenOf node) with
          | none => none
          | some st2 => some { st2 with out := st2.out ++ ['*'] }
      | "StaticText" =>
        match node.name with
        | some nm => some { st with out := st.out ++ nm }
        | none => some st
      | "InlineTextBox" => some st
      | "generic" | "group" | "section" | "article" | "main" | "region" =>
        convertListF (convertNodeF t fuel) st (t.childrenOf node)
      | "textbox" | "searchbox" =>
        let label := node.name.getD (strL "input")
        some { st with out := st.out ++ strL "[Input: " ++ label ++ [']'] }
      | "button" =>
        let label := node.name.getD (strL "button")
        some { st with out := st.out ++ strL "[Button: " ++ label ++ [']'] }
      | "checkbox" =>
        let label := node.name.getD (strL "checkbox")
        let checked :=
          match propGet node "Checked" with
          | some v => decide (v = strL "true")
          | none => false
        let marker := if checked then strL "[x]" else strL "[ ]"
        some { st with out := st.out ++ marker ++ [' '] ++ label }
      | "navigation" | "banner" | "contentinfo" | "complementary" | "search"
      | "form" | "toolbar" | "menubar" | "menu" | "menuitem" => some st
      | _ =>
        match getNodeTextF t fuel node with
        | none => none
        | some (some txt) =>
          if trimStr txt = [] then some st
          else some { st with out := st.out ++ txt }
        | some none =>
          convertListF (convertNodeF t fuel) st (t.childrenOf node)

/-- `MarkdownConverter::convert` before `cleanup_output`: raw buffer + links. -/
def axConvertRawF (t : AXTree) (fuel : Nat) : Option AxSt :=
  match t.rootNode with
  | none => some axSt0
  | some root => convertNodeF t fuel axSt0 root

/-- `ax_tree_to_markdown`: cleaned markdown plus the link list. -/
def axTreeToMarkdownF (t : AXTree) (fuel : Nat) : Option (Str × List Link) :=
  (axConvertRawF t fuel).map (fun st => (cleanupOutput st.out, st.links))

-- ===========================================================================
-- HTML document model (the parsed DOM handed over by the external
-- HTML-parsing collaborator) and markdown.rs conversion
-- ===========================================================================

/-- A parsed DOM node: text, or an element with tag, attributes, children. -/
inductive HNode where
  | text : Str → HNode
  | elem : String → List (String × Str) → List HNode → HNode

/-- Children of a node (`element.children()`, elements and text). -/
def HNode.kidsOf : HNode → List HNode
  | .text _ => []
  | .elem _ _ k => k

/-- The element's tag, if an element. -/
def HNode.tagOf : HNode → Option String
  | .text _ => none
  | .elem t _ _ => some t

/-- Attribute lookup (`element.value().attr(name)`). -/
def HNode.attr : HNode → String → Option Str
  | .text _, _ => none
  | .elem _ attrs _, key => (attrs.find? (fun p => p.1 = key)).map (fun p => p.2)

mutual

/-- `element.text().collect::<String>()`: all text descendants in order. -/
def innerTextOf : HNode → Str
  | .text s => s
  | .elem _ _ kids => innerTextList kids

/-- Text of a forest. -/
def innerTextList : List HNode → Str
  | [] => []
  | n :: ns => innerTextOf n ++ innerTextList ns

end

mutual

/-- All elements of a subtree, self included, in pre-order. -/
def subElems : HNode → List HNode
  | .text _ => []
  | .elem t a k => HNode.elem t a k :: subElemsList k

/-- Elements of a forest in pre-order. -/
def subElemsList : List HNode → List HNode
  | [] => []
  | n :: ns => subElems n ++ subElemsList ns

end

/-- `ElementRef::select` ground set: proper descendants in pre-order. -/
def descElems : HNode → List HNode
  | .text _ => []
  | .elem _ _ kids => subElemsList kids

/-- Tag test. -/
def tagIs (tag : String) (n : HNode) : Bool :=
  match n with
  | .text _ => false
  | .elem t _ _ => t = tag

/-- Is the first string a prefix of the second? -/
def isPre2 : Str → Str → Bool
  | [], _ => true
  | _ :: _, [] => false
  | a :: as, b :: bs => a = b && isPre2 as bs

/-- Substring occurrence test (`str::contains`). -/
def containsSub (pat : Str) : Str → Bool
  | [] => pat.isEmpty
  | c :: rest => isPre2 pat (c :: rest) || containsSub pat rest

/-- Split on whitespace, dropping empty tokens (HTML class list). -/
def splitWsGo : Str → Str → List Str
  | acc, [] => if acc = [] then [] else [acc.reverse]
  | acc, c :: rest =>
    if isWs c then
      (if acc = [] then splitWsGo [] rest else acc.reverse :: splitWsGo [] rest)
    else splitWsGo (c :: acc) rest

/-- The whitespace-separated class tokens of an element. -/
def classTokens (n : HNode) : List Str :=
  splitWsGo [] ((n.attr "class").getD [])

-- ===========================================================================
-- Content selection (crates/fox-core/src/extract.rs)
-- ===========================================================================

/-- The CSS selector shapes appearing in `selectors_priority`. -/
inductive Sel where
  | tag : String → Sel
  | roleMain : Sel
  | cls : String → Sel
  | anchorId : String → Sel

/-- CSS selector matching against one element. -/
def selMatches : Sel → HNode → Bool
  | .tag t, n => tagIs t n
  | .roleMain, n => (n.attr "role").getD [] = strL "main"
  | .cls c, n => (classTokens n).contains (strL c)
  | .anchorId i, n => (n.attr "id").getD [] = strL i

/-- `selectors_priority` from `find_main_content`, in source order. -/
def prioritySelectors : List Sel :=
  [.tag "article", .tag "main", .roleMain,
   .cls "post-content", .cls "article-content", .cls "entry-content",
   .cls "content", .anchorId "content", .cls "post", .cls "article"]

/-- `document.select(sel).next()`: first matching element in pre-order. -/
def selectFirst (doc : HNode) (s : Sel) : Option HNode :=
  (subElems doc).find? (selMatches s)

/-- `has_meaningful_content`: trimmed plain-text length above 100.
(The source serialises the element and re-parses it; serialisation round
trips, so the subtree's own text is used here.) -/
def hasMeaningfulContent (n : HNode) : Bool :=
  decide ((trimStr (innerTextOf n)).length > 100)

/-- The priority-selector loop of `find_main_content`: only the FIRST match
of each selector is tested; an unqualifying first match falls through to the
next selector. -/
def trySelectors (doc : HNode) : List Sel → Option HNode
  | [] => none
  | s :: rest =>
    match selectFirst doc s with
    | some el => if hasMeaningfulContent el then some el else trySelectors doc rest
    | none => trySelectors doc rest

/-- Tags excluded from scoring (`score_element`'s early return). -/
def skipScoreTag (tag : String) : Bool :=
  tag = "script" || tag = "style" || tag = "nav" || tag = "header"
    || tag = "footer" || tag = "aside" || tag = "noscript" || tag = "iframe"

/-- Class attribute with a negative-signal substring (lowercased). -/
def negClassAttr (attrs : List (String × Str)) : Bool :=
  match (attrs.find? (fun p => p.1 = "class")).map (fun p => p.2) with
  | none => false
  | some cls =>
    let lower := cls.map Char.toLower
    containsSub (strL "nav") lower || containsSub (strL "menu") lower
      || containsSub (strL "sidebar") lower || containsSub (strL "footer") lower
      || containsSub (strL "header") lower || containsSub (strL "ad") lower
      || containsSub (strL "comment") lower

/-- One element's readability score at a given depth. -/
def scoreOf (n : HNode) (tag : String) (depth : Nat) : Int :=
  let s1 : Int := if tag = "article" || tag = "main" || tag = "section" then 50 else 0
  let s2 : Int := if tag = "div" || tag = "td" then 5 else 0
  let s3 : Int := if tag = "p" then 10 else 0
  let pCount : Int := ((descElems n).filter (tagIs "p")).length
  let textLen : Int := (trimStr (innerTextOf n)).length
  s1 + s2 + s3 + pCount * 5 + textLen / 100 - 2 * depth

/-- `format!("{}_{}", tag_name, depth)`. -/
def scoreKey (tag : String) (depth : Nat) : String :=
  tag ++ "_" ++ toString depth

/-- HashMap insert with overwrite (association-list model; the real map's
iteration order is arbitrary, which the spec flags as a tie-break risk). -/
def insertScore (m : List (String × (Int × HNode))) (k : String)
    (v : Int × HNode) : List (String × (Int × HNode)) :=
  if (m.find? (fun p => p.1 = k)).isSome then
    m.map (fun p => if p.1 = k then (k, v) else p)
  else m ++ [(k, v)]

mutual

/-- `score_element`: score an element (when its text exceeds 50 chars) and
recurse into children; excluded tags and negative classes stop the whole
subtree. -/
def scoreElement : HNode → List (String × (Int × HNode)) → Nat →
    List (String × (Int × HNode))
  | .text _, m, _ => m
  | .elem tag attrs kids, m, depth =>
    if skipScoreTag tag then m
    else if negClassAttr attrs then m
    else
      let n := HNode.elem tag attrs kids
      let m2 :=
        if (trimStr (innerTextOf n)).length > 50 then
          insertScore m (scoreKey tag depth) (scoreOf n tag depth, n)
        else m
      scoreList kids m2 (depth + 1)

/-- Child loop of `score_element` (text nodes are skipped). -/
def scoreList : List HNode → List (String × (Int × HNode)) → Nat →
    List (String × (Int × HNode))
  | [], m, _ => m
  | n :: ns, m, depth => scoreList ns (scoreElement n m depth) depth

end

/-- `max_by_key` over the candidates (the last maximum wins, as in Rust). -/
def maxScore : List (String × (Int × HNode)) → Option (Int × HNode)
  | [] => none
  | p :: rest =>
    some (rest.foldl (fun best q => if q.2.1 ≥ best.1 then q.2 else best) p.2)

/-- `score_and_extract`: fails only when no `<body>` exists. -/
def scoreAndExtract (doc : HNode) : Except Unit HNode :=
  match (subElems doc).find? (tagIs "body") with
  | none => .error ()
  | some body =>
    match maxScore (scoreElement body [] 0) with
    | some (_, n) => .ok n
    | none => .ok body

/-- `find_main_content`: priority selectors first, scored fallback second. -/
def findMainContent (doc : HNode) : Except Unit HNode :=
  match trySelectors doc prioritySelectors with
  | some el => .ok el
  | none => scoreAndExtract doc

-- ===========================================================================
-- HTML → Markdown conversion (crates/fox-core/src/markdown.rs)
-- ===========================================================================

/-- `Context` from markdown.rs (`current_position` is written, never read). -/
structure Ctx where
  inPre : Bool
  inCode : Bool
  inList : Bool
  listDepth : Nat
  listCounters : List Nat
  currentPosition : Nat
deriving DecidableEq

/-- `Context::default()`. -/
def ctx0 : Ctx :=
  { inPre := false, inCode := false, inList := false, listDepth := 0,
    listCounters := [], currentPosition := 0 }

/-- Converter state: the output buffer, the link list, the context. -/
structure HSt where
  out : Str
  links : List Link
  ctx : Ctx
deriving DecidableEq

/-- Initial state. -/
def hSt0 : HSt := { out := [], links := [], ctx := ctx0 }

/-- Regex `\s+` → `" "`: collapse whitespace runs to single spaces. -/
def normalizeWsGo : Bool → Str → Str
  | _, [] => []
  | prevWs, c :: rest =>
    if isWs c then
      (if prevWs then normalizeWsGo true rest else ' ' :: normalizeWsGo true rest)
    else c :: normalizeWsGo false rest

/-- `normalize_whitespace`. -/
def normalizeWs (s : Str) : Str := normalizeWsGo false s

/-- Count of trailing newlines. -/
def trailingNls (s : Str) : Nat :=
  (s.reverse.takeWhile (fun c => c = '\n')).length

/-- `ensure_newlines(output, count)`. -/
def ensureNl (s : Str) (count : Nat) : Str :=
  s ++ List.replicate (count - trailingNls s) '\n'

/-- The base URL: its scheme plus the external `url::Url::join` resolution
(join failure falling back to the raw href is folded into `joinWith`). -/
structure BaseUrl where
  scheme : Str
  joinWith : Str → Str

/-- `resolve_url`. -/
def resolveUrl (base : BaseUrl) (href : Str) : Str :=
  if isPre2 (strL "http://") href || isPre2 (strL "https://") href then href
  else if isPre2 (strL "//") href then base.scheme ++ [':'] ++ href
  else base.joinWith href

/-- `"s".replace('\n', " ")` for table cells. -/
def replaceNlSp (s : Str) : Str :=
  s.map (fun c => if c = '\n' then ' ' else c)

/-- Cells of one emitted row, iterating the column widths
(`row.get(i).unwrap_or("")`). -/
def htmlCells (row : List Str) : List Nat → Nat → Str
  | [], _ => []
  | w :: ws, i => ((' ' :: padCell (row.getD i []) w) ++ strL " |")
      ++ htmlCells row ws (i + 1)

/-- One emitted table row (HTML renderer). -/
def htmlRowLine (widths : List Nat) (row : List Str) : Str :=
  '|' :: htmlCells row widths 0

/-- Emitted lines of the HTML table (separator after row 0 iff a header row
was seen). -/
def htmlTableLinesGo (widths : List Nat) (hasHeader : Bool) :
    Nat → List (List Str) → List Str
  | _, [] => []
  | idx, row :: rest =>
    let line := htmlRowLine widths row
    let withSep := if idx = 0 && hasHeader then [line, sepLine widths] else [line]
    withSep ++ htmlTableLinesGo widths hasHeader (idx + 1) rest

/-- All lines emitted by markdown.rs `convert_table` for collected rows. -/
def htmlTableLines (rows : List (List Str)) (hasHeader : Bool) : List Str :=
  htmlTableLinesGo (colWidthsOf rows (numColsOf rows)) hasHeader 0 rows

/-- markdown.rs `convert_table` rendering, as the appended text. -/
def htmlRenderTable (rows : List (List Str)) (hasHeader : Bool) : Str :=
  if rows.isEmpty then []
  else ((htmlTableLines rows hasHeader).map (fun l => l ++ ['\n'])).flatten

mutual

/-- `convert_element`: process an element's children in order. -/
def convNodesF (base : BaseUrl) : Nat → HSt → List HNode → Option HSt
  | 0, _, _ => none
  | _ + 1, st, [] => some st
  | fuel + 1, st, n :: ns =>
    match convNodeF base fuel st n with
    | none => none
    | some st2 => convNodesF base fuel st2 ns

/-- One child of `convert_element`: a text node appends (normalised unless
inside pre/code) and updates `current_position`; an element dispatches to
`convert_tag`. -/
def convNodeF (base : BaseUrl) : Nat → HSt → HNode → Option HSt
  | 0, _, _ => none
  | fuel + 1, st, .text s =>
    let out2 :=
      if st.ctx.inPre || st.ctx.inCode then st.out ++ s
      else if (normalizeWs s).isEmpty then st.out
      else st.out ++ normalizeWs s
    some { st with
      out := out2,
      ctx := { st.ctx with currentPosition := out2.length } }
  | fuel + 1, st, .elem tag attrs kids => convTagF base fuel st tag attrs kids

/-- `convert_tag`. -/
def convTagF (base : BaseUrl) : Nat → HSt → String → List (String × Str) →
    List HNode → Option HSt
  | 0, _, _, _, _ => none
  | fuel + 1, st, tag, attrs, kids =>
    let node := HNode.elem tag attrs kids
    match tag with
    | "script" | "style" | "noscript" | "nav" | "footer" | "header" => some st
    | "h1" =>
      match convNodesF base fuel
          { st with out := ensureNl st.out 2 ++ strL "# " } kids with
      | none => none
      | some st2 => some { st2 with out := ensureNl st2.out 2 }
    | "h2" =>
      match convNodesF base fuel
          { st with out := ensureNl st.out 2 ++ strL "## " } kids with
      | none => none
      | some st2 => some { st2 with out := ensureNl st2.out 2 }
    | "h3" =>
      match convNodesF base fuel
          { st with out := ensureNl st.out 2 ++ strL "### " } kids with
      | none => none
      | some st2 => some { st2 with out := ensureNl st2.out 2 }
    | "h4" =>
      match convNodesF base fuel
          { st with out := ensureNl st.out 2 ++ strL "#### " } kids with
      | none => none
      | some st2 => some { st2 with out := ensureNl st2.out 2 }
    | "h5" =>
      match convNodesF base fuel
          { st with out := ensureNl st.out 2 ++ strL "##### " } kids with
      | none => none
      | some st2 => some { st2 with out := ensureNl st2.out 2 }
    | "h6" =>
      match convNodesF base fuel
          { st with out := ensureNl st.out 2 ++ strL "###### " } kids with
      | none => none
      | some st2 => some { st2 with out := ensureNl st2.out 2 }
    | "p" =>
      let st1 := { st with out := ensureNl st.out 2 }
      match convNodesF base fuel st1 kids with
      | none => none
      | some st2 => some { st2 with out := ensureNl st2.out 2 }
    | "div" | "section" | "article" | "main" =>
      let st1 := { st with out := ensureNl st.out 1 }
      match convNodesF base fuel st1 kids with
      | none => none
      | some st2 => some { st2 with out := ensureNl st2.out 1 }
    | "br" => some { st with out := st.out ++ strL "  \n" }
    | "hr" =>
      some { st with out := ensureNl (ensureNl st.out 2 ++ strL "---") 2 }
    | "strong" | "b" =>
      match convNodesF base fuel { st with out := st.out ++ strL "**" } kids with
      | none => none
      | some st2 => some { st2 with out := st2.out ++ strL "**" }
    | "em" | "i" =>
      match convNodesF base fuel { st with out := st.out ++ ['*'] } kids with
      | none => none
      | some st2 => some { st2 with out := st2.out ++ ['*'] }
    | "u" =>
      match convNodesF base fuel { st with out := st.out ++ ['_'] } kids with
      | none => none
      | some st2 => some { st2 with out := st2.out ++ ['_'] }
    | "s" | "strike" | "del" =>
      match convNodesF base fuel { st with out := st.out ++ strL "~~" } kids with
      | none => none
      | some st2 => some { st2 with out := st2.out ++ strL "~~" }
    | "code" =>
      if st.ctx.inPre then convNodesF base fuel st kids
      else
        let st1 := { st with
          out := st.out ++ [btick],
          ctx := { st.ctx with inCode := true } }
        match convNodesF base fuel st1 kids with
        | none => none
        | some st2 =>
          some { st2 with
            out := st2.out ++ [btick],
            ctx := { st2.ctx with inCode := false } }
    | "pre" =>
      let st1 := { st with
        out := ensureNl st.out 2 ++ strL "```\n",
        ctx := { st.ctx with inPre := true } }
      match convNodesF base fuel st1 kids with
      | none => none
      | some st2 =>
        let out3 :=
          if st2.out.getLast? = some '\n' then st2.out else st2.out ++ ['\n']
        some { st2 with
          out := ensureNl (out3 ++ strL "```") 2,
          ctx := { st2.ctx with inPre := false } }
    | "a" =>
      let txt := trimStr (innerTextList kids)
      match node.attr "href" with
      | some href =>
        let resolved := resolveUrl base href
        let position := st.out.length
        let shown := if txt.isEmpty then resolved else txt
        some { st with
          out := st.out ++ ['['] ++ shown ++ strL "](" ++ resolved ++ [')'],
          links := st.links
            ++ [{ text := txt, url := resolved, position := position }] }
      | none => convNodesF base fuel st kids
    | "img" =>
      let alt := (node.attr "alt").getD (strL "image")
      match node.attr "src" with
      | some src =>
        let resolved := resolveUrl base src
        some { st with
          out := st.out ++ strL "![" ++ alt ++ strL "](" ++ resolved ++ [')'] }
      | none =>
        some { st with out := st.out ++ strL "[IMG: " ++ alt ++ [']'] }
    | "ul" =>
      let st1 := { st with
        out := ensureNl st.out 2,
        ctx := { st.ctx with
          listDepth := st.ctx.listDepth + 1,
          inList := true,
          listCounters := 0 :: st.ctx.listCounters } }
      match convNodesF base fuel st1 kids with
      | none => none
      | some st2 =>
        let d := st2.ctx.listDepth - 1
        some { st2 with
          out := ensureNl st2.out 2,
          ctx := { st2.ctx with
            listCounters := st2.ctx.listCounters.tail,
            listDepth := d,
            inList := decide (d > 0) } }
    | "ol" =>
      let st1 := { st with
        out := ensureNl st.out 2,
        ctx := { st.ctx with
          listDepth := st.ctx.listDepth + 1,
          inList := true,
          listCounters := 1 :: st.ctx.listCounters } }
      match convNodesF base fuel st1 kids with
      | none => none
      | some st2 =>
        let d := st2.ctx.listDepth - 1
        some { st2 with
          out := ensureNl st2.out 2,
          ctx := { st2.ctx with
            listCounters := st2.ctx.listCounters.tail,
            listDepth := d,
            inList := decide (d > 0) } }
    | "li" =>
      let st1 := { st with out := ensureNl st.out 1 }
      let indent := repChars (strL "  ") (st1.ctx.listDepth - 1)
      let st2 :=
        match st1.ctx.listCounters with
        | counter :: rest =>
          if counter > 0 then
            { st1 with
              out := st1.out ++ indent ++ numStr counter ++ strL ". ",
              ctx := { st1.ctx with listCounters := (counter + 1) :: rest } }
          else { st1 with out := st1.out ++ indent ++ strL "- " }
        | [] => { st1 with out := st1.out ++ indent ++ strL "- " }
      convNodesF base fuel st2 kids
    | "blockquote" =>
      let st1 := { st with out := ensureNl st.out 2 }
      let inner := innerTextList kids
      let quoted := ((linesOf inner).map
        (fun l => strL "> " ++ trimStr l ++ ['\n'])).flatten
      some { st1 with out := ensureNl (st1.out ++ quoted) 1 }
    | "table" =>
      let st1 := { st with out := ensureNl st.out 2 }
      match convRowsF base fuel st1 ((descElems node).filter (tagIs "tr")) with
      | none => none
      | some (rows, hasHeader, st2) =>
        some { st2 with
          out := ensureNl (st2.out ++ htmlRenderTable rows hasHeader) 2 }
    | "video" | "audio" =>
      let mt := if tag = "video" then strL "VIDEO" else strL "AUDIO"
      match node.attr "src" with
      | some src =>
        let resolved := resolveUrl base src
        some { st with
          out := st.out ++ ['['] ++ mt ++ strL ": " ++ resolved ++ [']'] }
      | none => some { st with out := st.out ++ ['['] ++ mt ++ [']'] }
    | "iframe" =>
      match node.attr "src" with
      | some src =>
        let resolved := resolveUrl base src
        let title := (node.attr "title").getD (strL "embedded content")
        some { st with
          out := st.out ++ strL "[IFRAME: " ++ title ++ strL " ("
            ++ resolved ++ strL ")]" }
      | none => some st
    | "form" =>
      let st1 := { st with
        out := ensureNl (ensureNl st.out 2 ++ strL "[FORM]") 1 }
      match convNodesF base fuel st1 kids with
      | none => none
      | some st2 =>
        some { st2 with
          out := ensureNl (ensureNl st2.out 1 ++ strL "[/FORM]") 2 }
    | "input" =>
      let ty := (node.attr "type").getD (strL "text")
      let nm := (node.attr "name").getD []
      let ph := (node.attr "placeholder").getD []
      if ty = strL "hidden" then some st
      else if ty = strL "submit" || ty = strL "button" then
        let v := (node.attr "value").getD (strL "Submit")
        some { st with out := st.out ++ ['['] ++ v ++ [']'] }
      else if ty = strL "checkbox" || ty = strL "radio" then
        let marker := if (node.attr "checked").isSome
          then strL "[x]" else strL "[ ]"
        some { st with out := st.out ++ marker }
      else
        let label := if ¬ph.isEmpty then ph
          else if ¬nm.isEmpty then nm else strL "input"
        some { st with out := st.out ++ strL "[INPUT: " ++ label ++ [']'] }
    | "textarea" =>
      let nm := (node.attr "name").getD (strL "text")
      some { st with out := st.out ++ strL "[TEXTAREA: " ++ nm ++ [']'] }
    | "select" =>
      let nm := (node.attr "name").getD (strL "select")
      some { st with out := st.out ++ strL "[SELECT: " ++ nm ++ [']'] }
    | "button" =>
      let txt := innerTextList kids
      some { st with out := st.out ++ ['['] ++ trimStr txt ++ [']'] }
    | "label" => convNodesF base fuel st kids
    | _ => convNodesF base fuel st kids

/-- Table data cells: each cell rendered into a fresh buffer (links and
context keep threading through the shared state). -/
def convCellsF (base : BaseUrl) : Nat → HSt → List HNode →
    Option (List Str × HSt)
  | 0, _, _ => none
  | _ + 1, st, [] => some ([], st)
  | fuel + 1, st, td :: tds =>
    match convNodesF base fuel { out := [], links := st.links, ctx := st.ctx }
        td.kidsOf with
    | none => none
    | some sub =>
      let cell := replaceNlSp (trimStr sub.out)
      match convCellsF base fuel
          { out := st.out, links := sub.links, ctx := sub.ctx } tds with
      | none => none
      | some (cells, st2) => some (cell :: cells, st2)

/-- Table row collection (`tr` descendants; `th` cells win and mark a header
row, else `td` cells are rendered recursively). -/
def convRowsF (base : BaseUrl) : Nat → HSt → List HNode →
    Option (List (List Str) × Bool × HSt)
  | 0, _, _ => none
  | _ + 1, st, [] => some ([], false, st)
  | fuel + 1, st, tr :: trs =>
    let ths := (descElems tr).filter (tagIs "th")
    if ¬ths.isEmpty then
      let cells := ths.map (fun th => trimStr (innerTextOf th))
      match convRowsF base fuel st trs with
      | none => none
      | some (rows, _, st2) =>
        some ((if cells.isEmpty then rows else cells :: rows), true, st2)
    else
      let tds := (descElems tr).filter (tagIs "td")
      match convCellsF base fuel st tds with
      | none => none
      | some (cells, st1) =>
        match convRowsF base fuel st1 trs with
        | none => none
        | some (rows, hh, st2) =>
          some ((if cells.isEmpty then rows else cells :: rows), hh, st2)

end

/-- `html_to_markdown_with_base` before `clean_markdown`: raw buffer and
links, processing the fragment roots in order. -/
def htmlToMarkdownRawF (base : BaseUrl) (fuel : Nat) (roots : List HNode) :
    Option HSt :=
  convNodesF base fuel hSt0 roots

/-- `html_to_markdown_with_base`: cleaned markdown plus links. -/
def htmlToMarkdownF (base : BaseUrl) (fuel : Nat) (roots : List HNode) :
    Option (Str × List Link) :=
  (htmlToMarkdownRawF base fuel roots).map
    (fun st => (cleanMarkdown st.out, st.links))

-- ===========================================================================
-- markdown_to_plain (markdown.rs)
-- ===========================================================================

/-- Regex `^#{1,6}\s+` removal: anchored at the start of the WHOLE string
(the regex is compiled without multi-line mode), greedy over the trailing
whitespace. -/
def headerStrip (s : Str) : Str :=
  let hs := s.takeWhile (fun c => decide (c = '#'))
  let rest := s.dropWhile (fun c => decide (c = '#'))
  if 1 ≤ hs.length && hs.length ≤ 6 then
    match rest with
    | c :: _ => if isWs c then rest.dropWhile isWs else s
    | [] => s
  else s

/-- Regex `\[([^\]]+)\]\([^)]+\)` → `$1`: left-to-right scan replacing each
link span by its text. -/
def linkStripGo : Nat → Str → Str
  | 0, s => s
  | _ + 1, [] => []
  | fuel + 1, '[' :: rest =>
    let txt := rest.takeWhile (fun c => !decide (c = ']'))
    let rem := rest.dropWhile (fun c => !decide (c = ']'))
    (match txt, rem with
     | _ :: _, ']' :: '(' :: rem2 =>
       let url := rem2.takeWhile (fun c => !decide (c = ')'))
       let rem3 := rem2.dropWhile (fun c => !decide (c = ')'))
       (match url, rem3 with
        | _ :: _, ')' :: rem4 => txt ++ linkStripGo fuel rem4
        | _, _ => '[' :: linkStripGo fuel rest)
     | _, _ => '[' :: linkStripGo fuel rest)
  | fuel + 1, c :: rest => c :: linkStripGo fuel rest

/-- Link-stripping pass. -/
def linkStrip (s : Str) : Str := linkStripGo (s.length + 1) s

/-- Regex `\*\*([^*]+)\*\*` → `$1`. -/
def boldStripGo : Nat → Str → Str
  | 0, s => s
  | _ + 1, [] => []
  | fuel + 1, '*' :: '*' :: rest =>
    let txt := rest.takeWhile (fun c => !decide (c = '*'))
    let rem := rest.dropWhile (fun c => !decide (c = '*'))
    (match txt, rem with
     | _ :: _, '*' :: '*' :: rem2 => txt ++ boldStripGo fuel rem2
     | _, _ => '*' :: boldStripGo fuel ('*' :: rest))
  | fuel + 1, c :: rest => c :: boldStripGo fuel rest

/-- Bold-stripping pass. -/
def boldStrip (s : Str) : Str := boldStripGo (s.length + 1) s

/-- Regex `\*([^*]+)\*` → `$1`. -/
def italicStripGo : Nat → Str → Str
  | 0, s => s
  | _ + 1, [] => []
  | fuel + 1, '*' :: rest =>
    let txt := rest.takeWhile (fun c => !decide (c = '*'))
    let rem := rest.dropWhile (fun c => !decide (c = '*'))
    (match txt, rem with
     | _ :: _, '*' :: rem2 => txt ++ italicStripGo fuel rem2
     | _, _ => '*' :: italicStripGo fuel rest)
  | fuel + 1, c :: rest => c :: italicStripGo fuel rest

/-- Italic-stripping pass. -/
def italicStrip (s : Str) : Str := italicStripGo (s.length + 1) s

/-- `markdown_to_plain`: headers, links, bold, italic, backticks, newline
collapse, trim — in source order. -/
def markdownToPlain (s : Str) : Str :=
  let t1 := headerStrip s
  let t2 := linkStrip t1
  let t3 := boldStrip t2
  let t4 := italicStrip t3
  let t5 := t4.filter (fun c => !decide (c = btick))
  trimStr (collapseRuns t5)

-- ===========================================================================
-- extract_content pipeline (text part)
-- ===========================================================================

/-- `extract_content`'s markdown text: select the main content, then render
it (the selected fragment re-parses to the selected element itself). -/
def extractContentTextF (base : BaseUrl) (fuel : Nat) (doc : HNode) :
    Option (Except Unit Str) :=
  match findMainContent doc with
  | .error e => some (.error e)
  | .ok node => (htmlToMarkdownF base fuel [node]).map (fun p => .ok p.1)

-- ===========================================================================
-- Concrete trees and documents used by the claims
-- ===========================================================================

/-- A node whose only child id is itself: a one-node cycle. -/
def cycNode : AXNode :=
  { nodeId := "a", role := "generic", name := none, value := none,
    description := none, level := none, url := none, focused := false,
    ignored := false, childIds := ["a"], properties := [] }

/-- The cyclic tree rooted at `cycNode`. -/
def cycTree : AXTree := { nodes := [("a", cycNode)], rootId := some "a" }

theorem walkNodeF_cyc (fuel : Nat) : ∀ (d : Nat),
    walkNodeF cycTree fuel cycNode d = none := by
  induction fuel with
  | zero => intro d; rfl
  | succ f ih =>
    intro d
    rw [walkNodeF]
    have hch : cycTree.childrenOf cycNode = [cycNode] := rfl
    rw [hch]
    simp only [List.foldl]
    rw [ih (d + 1)]

theorem convertNodeF_cyc (fuel : Nat) : ∀ (st : AxSt),
    convertNodeF cycTree fuel st cycNode = none := by
  induction fuel with
  | zero => intro st; rfl
  | succ f ih =>
    intro st
    rw [convertNodeF]
    have hsk : shouldSkipButRecurse cycNode = true := rfl
    rw [hsk]
    simp only [if_true]
    have hch : cycTree.childrenOf cycNode = [cycNode] := rfl
    rw [hch]
    rw [convertListF, ih st]

/-- Membership of a node among the tree's stored values. -/
def inTree (t : AXTree) (n : AXNode) : Prop :=
  ∃ id, (id, n) ∈ t.nodes

/-- A decreasing rank on resolvable child edges of stored nodes: the
acyclicity witness. -/
def MeasureDec (t : AXTree) (mu : AXNode → Nat) : Prop :=
  ∀ n c, inTree t n → c ∈ t.childrenOf n → mu c < mu n

theorem get_inTree {t : AXTree} {id : String} {n : AXNode}
    (h : t.get id = some n) : inTree t n := by
  unfold AXTree.get at h
  cases hf : t.nodes.find? (fun p => p.1 = id) with
  | none => rw [hf] at h; cases h
  | some p =>
    rw [hf] at h
    injection h with h2
    subst h2
    exact ⟨p.1, by have := List.mem_of_find?_eq_some hf; simpa using this⟩

theorem childrenOf_inTree {t : AXTree} {n c : AXNode}
    (h : c ∈ t.childrenOf n) : inTree t c := by
  unfold AXTree.childrenOf at h
  rcases List.mem_filterMap.mp h with ⟨id, _, hget⟩
  exact get_inTree hget

theorem rootNode_inTree {t : AXTree} {root : AXNode}
    (h : t.rootNode = some root) : inTree t root := by
  unfold AXTree.rootNode at h
  cases hr : t.rootId with
  | none => rw [hr] at h; cases h
  | some id => rw [hr] at h; exact get_inTree h

theorem foldl_walk_isSome (t : AXTree) (f d : Nat) :
    ∀ (l : List AXNode) (acc : Option (List (AXNode × Nat))),
      acc.isSome = true →
      (∀ c ∈ l, (walkNodeF t f c (d + 1)).isSome = true) →
      (l.foldl
        (fun acc child =>
          match acc, walkNodeF t f child (d + 1) with
          | some l, some l2 => some (l ++ l2)
          | _, _ => none) acc).isSome = true := by
  intro l
  induction l with
  | nil => intro acc hacc _; exact hacc
  | cons c cs ih =>
    intro acc hacc hall
    rw [List.foldl_cons]
    apply ih
    · rcases Option.isSome_iff_exists.mp hacc with ⟨v, hv⟩
      rcases Option.isSome_iff_exists.mp (hall c (by simp)) with ⟨w, hw⟩
      rw [hv, hw]
      rfl
    · intro x hx
      exact hall x (by simp [hx])

theorem walkNodeF_measure (t : AXTree) (mu : AXNode → Nat)
    (hdec : MeasureDec t mu) :
    ∀ (fuel : Nat) (n : AXNode) (d : Nat), inTree t n → mu n < fuel →
      (walkNodeF t fuel n d).isSome = true := by
  intro fuel
  induction fuel with
  | zero => intro n d _ h; omega
  | succ f ih =>
    intro n d hin h
    rw [walkNodeF]
    apply foldl_walk_isSome
    · rfl
    · intro c hc
      exact ih c (d + 1) (childrenOf_inTree hc)
        (by have := hdec n c hin hc; omega)

theorem isSome_ne_none {α : Type} {o : Option α} (h : o.isSome = true) :
    o ≠ none := by
  intro he
  rw [he] at h
  simp at h

theorem foldl_collect_isSome (t : AXTree) (f : Nat) :
    ∀ (l : List AXNode) (acc : Option Str),
      acc.isSome = true →
      (∀ c ∈ l, (collectTextF t f c).isSome = true) →
      (l.foldl (fun acc child =>
        match acc, collectTextF t f child with
        | some s, some s2 => some (s ++ s2)
        | _, _ => none) acc).isSome = true := by
  intro l
  induction l with
  | nil => intro acc hacc _; exact hacc
  | cons c cs ih =>
    intro acc hacc hall
    rw [List.foldl_cons]
    apply ih
    · rcases Option.isSome_iff_exists.mp hacc with ⟨v, hv⟩
      rcases Option.isSome_iff_exists.mp (hall c (by simp)) with ⟨w, hw⟩
      rw [hv, hw]
      rfl
    · intro x hx
      exact hall x (by simp [hx])

theorem collectTextF_measure (t : AXTree) (mu : AXNode → Nat)
    (hdec : MeasureDec t mu) :
    ∀ (fuel : Nat) (n : AXNode), inTree t n → mu n < fuel →
      (collectTextF t fuel n).isSome = true := by
  intro fuel
  induction fuel with
  | zero => intro n _ h; omega
  | succ f ih =>
    intro n hin h
    rw [collectTextF]
    split
    · rfl
    · split
      · rfl
      · apply foldl_collect_isSome
        · rfl
        · intro c hc
          exact ih c (childrenOf_inTree hc)
            (by have := hdec n c hin hc; omega)

theorem getNodeTextF_measure (t : AXTree) (mu : AXNode → Nat)
    (hdec : MeasureDec t mu) (fuel : Nat) (n : AXNode)
    (hin : inTree t n) (h : mu n < fuel) :
    (getNodeTextF t fuel n).isSome = true := by
  unfold getNodeTextF
  split
  · rfl
  · rcases Option.isSome_iff_exists.mp
      (collectTextF_measure t mu hdec fuel n hin h) with ⟨txt, htxt⟩
    simp only [htxt]
    split <;> rfl

theorem mapTexts_measure (t : AXTree) (mu : AXNode → Nat)
    (hdec : MeasureDec t mu) (fuel : Nat) :
    ∀ (ns : List AXNode), (∀ c ∈ ns, inTree t c ∧ mu c < fuel) →
      (mapTexts t fuel ns).isSome = true := by
  intro ns
  induction ns with
  | nil => intro _; rfl
  | cons c cs ih =>
    intro hall
    rw [mapTexts]
    obtain ⟨h1, h2⟩ := hall c (by simp)
    rcases Option.isSome_iff_exists.mp
      (getNodeTextF_measure t mu hdec fuel c h1 h2) with ⟨v, hv⟩
    rcases Option.isSome_iff_exists.mp
      (ih (fun x hx => hall x (by simp [hx]))) with ⟨vs, hvs⟩
    rw [hv, hvs]
    rfl

theorem addRow_measure (t : AXTree) (mu : AXNode → Nat)
    (hdec : MeasureDec t mu) (fuel : Nat)
    (acc : Option (List (List Str) × Option Nat)) (rowNode : AXNode)
    (hacc : acc.isSome = true) (hin : inTree t rowNode)
    (h : mu rowNode < fuel) :
    (addRow t fuel acc rowNode).isSome = true := by
  unfold addRow
  rcases Option.isSome_iff_exists.mp hacc with ⟨⟨rows, hr⟩, hv⟩
  rw [hv]
  have hcells : ∀ c ∈ rowCellNodes t rowNode, inTree t c ∧ mu c < fuel := by
    intro c hc
    have hmem : c ∈ t.childrenOf rowNode := by
      unfold rowCellNodes at hc
      exact List.mem_of_mem_filter hc
    exact ⟨childrenOf_inTree hmem, by have := hdec rowNode c hin hmem; omega⟩
  rcases Option.isSome_iff_exists.mp
    (mapTexts_measure t mu hdec fuel _ hcells) with ⟨cells, hcv⟩
  rw [hcv]
  rfl

theorem foldl_rows_isSome (t : AXTree) (mu : AXNode → Nat)
    (hdec : MeasureDec t mu) (fuel : Nat) :
    ∀ (l : List AXNode) (acc : Option (List (List Str) × Option Nat)),
      acc.isSome = true →
      (∀ c ∈ l, inTree t c ∧ mu c < fuel) →
      (l.foldl (fun acc2 rc =>
        if rc.role = "row" then addRow t fuel acc2 rc else acc2)
        acc).isSome = true := by
  intro l
  induction l with
  | nil => intro acc hacc _; exact hacc
  | cons c cs ih =>
    intro acc hacc hall
    rw [List.foldl_cons]
    apply ih
    · obtain ⟨h1, h2⟩ := hall c (by simp)
      split
      · exact addRow_measure t mu hdec fuel acc c hacc h1 h2
      · exact hacc
    · intro x hx
      exact hall x (by simp [hx])

theorem foldl_tableRows_isSome (t : AXTree) (mu : AXNode → Nat)
    (hdec : MeasureDec t mu) (fuel : Nat) :
    ∀ (l : List AXNode) (acc : Option (List (List Str) × Option Nat)),
      acc.isSome = true →
      (∀ c ∈ l, inTree t c ∧ mu c < fuel) →
      (l.foldl (fun acc child =>
        if child.role = "row" then addRow t fuel acc child
        else if child.role = "rowgroup" then
          (t.childrenOf child).foldl (fun acc2 rc =>
            if rc.role = "row" then addRow t fuel acc2 rc else acc2) acc
        else acc) acc).isSome = true := by
  intro l
  induction l with
  | nil => intro acc hacc _; exact hacc
  | cons c cs ih =>
    intro acc hacc hall
    rw [List.foldl_cons]
    apply ih
    · obtain ⟨h1, h2⟩ := hall c (by simp)
      split
      · exact addRow_measure t mu hdec fuel acc c hacc h1 h2
      · split
        · apply foldl_rows_isSome t mu hdec fuel _ _ hacc
          intro rc hrc
          have := hdec c rc h1 hrc
          exact ⟨childrenOf_inTree hrc, by omega⟩
        · exact hacc
    · intro x hx
      exact hall x (by simp [hx])

theorem collectRowsAX_measure (t : AXTree) (mu : AXNode → Nat)
    (hdec : MeasureDec t mu) (fuel : Nat) (tn : AXNode)
    (hin : inTree t tn) (h : mu tn < fuel) :
    (collectRowsAX t fuel tn).isSome = true := by
  unfold collectRowsAX
  apply foldl_tableRows_isSome t mu hdec fuel (t.childrenOf tn)
    (some ([], none)) rfl
  intro c hc
  have := hdec tn c hin hc
  exact ⟨childrenOf_inTree hc, by omega⟩

theorem convertListF_measure (t : AXTree) (mu : AXNode → Nat) (fuel : Nat)
    (ihc : ∀ (st : AxSt) (c : AXNode), inTree t c → mu c + 1 < fuel →
      (convertNodeF t fuel st c).isSome = true) :
    ∀ (ns : List AXNode) (st : AxSt),
      (∀ c ∈ ns, inTree t c ∧ mu c + 1 < fuel) →
      (convertListF (convertNodeF t fuel) st ns).isSome = true := by
  intro ns
  induction ns with
  | nil => intro st _; rfl
  | cons c cs ih =>
    intro st hall
    rw [convertListF]
    obtain ⟨hc1, hc2⟩ := hall c (by simp)
    rcases Option.isSome_iff_exists.mp (ihc st c hc1 hc2) with ⟨st2, hst2⟩
    rw [hst2]
    exact ih st2 (fun x hx => hall x (by simp [hx]))
theorem convertNodeF_measure (t : AXTree) (mu : AXNode → Nat)
    (hdec : MeasureDec t mu) :
    ∀ (fuel : Nat) (st : AxSt) (n : AXNode), inTree t n → mu n + 1 < fuel →
      (convertNodeF t fuel st n).isSome = true := by
  intro fuel
  induction fuel with
  | zero =>
    intro st n _ h
    omega
  | succ fuel ih =>
    intro st n hin hmu
    have hmu2 : mu n < fuel := by omega
    have hch : ∀ c ∈ t.childrenOf n, inTree t c ∧ mu c + 1 < fuel := by
      intro c hc
      have := hdec n c hin hc
      exact ⟨childrenOf_inTree hc, by omega⟩
    rw [convertNodeF]
    split
    · exact convertListF_measure t mu fuel ih _ _ hch
    · split
      · rfl
      · split
        all_goals try simp only []
        -- RootWebArea / WebArea / document
        · exact convertListF_measure t mu fuel ih _ _ hch
        · exact convertListF_measure t mu fuel ih _ _ hch
        · exact convertListF_measure t mu fuel ih _ _ hch
        -- heading
        · split
          · rename_i heq
            exact absurd heq (isSome_ne_none
              (getNodeTextF_measure t mu hdec fuel n hin hmu2))
          · rfl
          · rfl
        -- paragraph
        · split
          · split
            · rename_i heq
              exact absurd heq (isSome_ne_none
                (convertListF_measure t mu fuel ih _ _ hch))
            · rfl
          · split
            · rename_i heq
              exact absurd heq (isSome_ne_none
                (getNodeTextF_measure t mu hdec fuel n hin hmu2))
            · rfl
            · split
              · rfl
              · rfl
        -- link
        · split
          · rename_i heq
            exact absurd heq (isSome_ne_none
              (getNodeTextF_measure t mu hdec fuel n hin hmu2))
          · split
            · rfl
            · rfl
        -- list
        · split
          · rename_i heq
            exact absurd heq (isSome_ne_none
              (convertListF_measure t mu fuel ih _ _ hch))
          · split
            · rfl
            · rfl
        -- listitem
        · split
          · rename_i heq
            exact absurd heq (isSome_ne_none
              (getNodeTextF_measure t mu hdec fuel n hin hmu2))
          · rfl
          · split
            · rename_i heq
              exact absurd heq (isSome_ne_none
                (convertListF_measure t mu fuel ih _ _ hch))
            · rfl
        -- blockquote
        · split
          · rename_i heq
            exact absurd heq (isSome_ne_none
              (getNodeTextF_measure t mu hdec fuel n hin hmu2))
          · rfl
        -- code
        · split
          · split
            · rename_i heq
              exact absurd heq (isSome_ne_none
                (getNodeTextF_measure t mu hdec fuel n hin hmu2))
            · rfl
          · split
            · rename_i heq
              exact absurd heq (isSome_ne_none
                (getNodeTextF_measure t mu hdec fuel n hin hmu2))
            · split
              · rfl
              · rfl
        -- pre
        · split
          · split
            · rename_i heq
              exact absurd heq (isSome_ne_none
                (getNodeTextF_measure t mu hdec fuel n hin hmu2))
            · rfl
          · split
            · rename_i heq
              exact absurd heq (isSome_ne_none
                (getNodeTextF_measure t mu hdec fuel n hin hmu2))
            · split
              · rfl
              · rfl
        -- image / img
        · split
          · rfl
          · rfl
        · split
          · rfl
          · rfl
        -- table
        · split
          · rename_i heq
            exact absurd heq (isSome_ne_none
              (collectRowsAX_measure t mu hdec fuel n hin hmu2))
          · rfl
        -- separator
        · rfl
        -- strong
        · split
          · rename_i heq
            exact absurd heq (isSome_ne_none
              (getNodeTextF_measure t mu hdec fuel n hin hmu2))
          · rfl
          · split
            · rename_i heq
              exact absurd heq (isSome_ne_none
                (convertListF_measure t mu fuel ih _ _ hch))
            · rfl
        -- emphasis
        · split
          · rename_i heq
            exact absurd heq (isSome_ne_none
              (getNodeTextF_measure t mu hdec fuel n hin hmu2))
          · rfl
          · split
            · rename_i heq
              exact absurd heq (isSome_ne_none
                (convertListF_measure t mu fuel ih _ _ hch))
            · rfl
        -- StaticText
        · split
          · rfl
          · rfl
        -- InlineTextBox
        · rfl
        -- generic / group / section / article / main / region
        · exact convertListF_measure t mu fuel ih _ _ hch
        · exact convertListF_measure t mu fuel ih _ _ hch
        · exact convertListF_measure t mu fuel ih _ _ hch
        · exact convertListF_measure t mu fuel ih _ _ hch
        · exact convertListF_measure t mu fuel ih _ _ hch
        · exact convertListF_measure t mu fuel ih _ _ hch
        -- textbox / searchbox / button / checkbox
        · rfl
        · rfl
        · rfl
        · rfl
        -- navigation .. menuitem
        · rfl
        · rfl
        · rfl
        · rfl
        · rfl
        · rfl
        · rfl
        · rfl
        · rfl
        · rfl
        -- catch-all
        · split
          · rename_i heq
            exact absurd heq (isSome_ne_none
              (getNodeTextF_measure t mu hdec fuel n hin hmu2))
          · split
            · rfl
            · rfl
          · exact convertListF_measure t mu fuel ih _ _ hch
-- ===========================================================================
-- C1
-- ===========================================================================

/-- C1 counterexample: the claim says traversal terminates on every tree,
cycles included, because the implementation bounds depth or tracks visited
ids.  It does neither: on the one-node cycle `cycTree` neither `walk` nor
the conversion recursion completes for any recursion-depth budget. -/
theorem C1_cycle_divergence :
    (¬ ∃ (fuel : Nat) (r : List (AXNode × Nat)), axWalkF cycTree fuel = some r)
    ∧ (¬ ∃ (fuel : Nat) (st : AxSt),
        convertNodeF cycTree fuel axSt0 cycNode = some st) := by
  constructor
  · rintro ⟨fuel, r, hr⟩
    have : axWalkF cycTree fuel = none := by
      unfold axWalkF
      have hroot : cycTree.rootNode = some cycNode := rfl
      rw [hroot]
      exact walkNodeF_cyc fuel 0
    rw [this] at hr
    cases hr
  · rintro ⟨fuel, st, hst⟩
    rw [convertNodeF_cyc fuel axSt0] at hst
    cases hst

/-- C1 amended: both traversals terminate exactly on well-founded inputs.
Whenever the resolvable child edges of stored nodes admit a decreasing rank,
`AXTree::walk` and the conversion recursion of `ax_tree_to_markdown` both
complete for every recursion budget exceeding the root's rank by more than
one (the conversion spends one extra level inside `get_node_text`'s
text-collection recursion).  The code has neither a visited set nor a depth
cap, so on a cyclic tree both recursions diverge for every budget (see the
counterexample theorem). -/
theorem C1_traversals_terminate (t : AXTree) (mu : AXNode → Nat)
    (hdec : MeasureDec t mu) (fuel : Nat)
    (hf : ∀ root, t.rootNode = some root → mu root + 1 < fuel) :
    (∃ r, axWalkF t fuel = some r) ∧
    (∃ st, axConvertRawF t fuel = some st) := by
  constructor
  · unfold axWalkF
    cases hroot : t.rootNode with
    | none => exact ⟨[], rfl⟩
    | some root =>
      have := walkNodeF_measure t mu hdec fuel root 0 (rootNode_inTree hroot)
        (by have := hf root hroot; omega)
      exact Option.isSome_iff_exists.mp this
  · unfold axConvertRawF
    cases hroot : t.rootNode with
    | none => exact ⟨axSt0, rfl⟩
    | some root =>
      have := convertNodeF_measure t mu hdec fuel axSt0 root
        (rootNode_inTree hroot) (hf root hroot)
      exact Option.isSome_iff_exists.mp this

/-- Witness root node for the C1 witness tree. -/
def w1root : AXNode :=
  { nodeId := "r", role := "RootWebArea", name := none, value := none,
    description := none, level := none, url := none, focused := false,
    ignored := false, childIds := ["c"], properties := [] }

/-- Witness child node. -/
def w1child : AXNode :=
  { nodeId := "c", role := "StaticText", name := some (strL "x"),
    value := none, description := none, level := none, url := none,
    focused := false, ignored := false, childIds := [], properties := [] }

/-- Witness tree. -/
def w1tree : AXTree :=
  { nodes := [("r", w1root), ("c", w1child)], rootId := some "r" }

/-- Witness rank. -/
def w1mu (n : AXNode) : Nat := if n.nodeId = "r" then 1 else 0

theorem C1_traversals_terminate_witness :
    (MeasureDec w1tree w1mu ∧
      (∀ root, w1tree.rootNode = some root → w1mu root + 1 < 3)) ∧
    ((∃ r, axWalkF w1tree 3 = some r) ∧
      (∃ st, axConvertRawF w1tree 3 = some st)) := by
  have hdec : MeasureDec w1tree w1mu := by
    intro n c hin hc
    rcases hin with ⟨id, hid⟩
    have hcases : n = w1root ∨ n = w1child := by
      simp only [w1tree, List.mem_cons, List.mem_singleton] at hid
      rcases hid with h | h | h
      · left; exact (Prod.mk.injEq _ _ _ _ ▸ h).2
      · right; exact (Prod.mk.injEq _ _ _ _ ▸ h).2
      · cases h
    rcases hcases with rfl | rfl
    · have hch : w1tree.childrenOf w1root = [w1child] := rfl
      rw [hch] at hc
      simp only [List.mem_singleton] at hc
      subst hc
      decide
    · have hch : w1tree.childrenOf w1child = [] := rfl
      rw [hch] at hc
      cases hc
  have hf : ∀ root, w1tree.rootNode = some root → w1mu root + 1 < 3 := by
    intro root hroot
    have h : root = w1root := by
      have he : w1tree.rootNode = some w1root := rfl
      rw [he] at hroot
      injection hroot with h
      exact h.symm
    subst h
    decide
  exact ⟨⟨hdec, hf⟩, C1_traversals_terminate w1tree w1mu hdec 3 hf⟩

-- ===========================================================================
-- C5
-- ===========================================================================

/-- C5 failing input: root with a dangling first child id and a real second
child. -/
def dglRoot : AXNode :=
  { nodeId := "root", role := "RootWebArea", name := none, value := none,
    description := none, level := none, url := none, focused := false,
    ignored := false, childIds := ["dead", "real"], properties := [] }

/-- The resolvable second child. -/
def dglReal : AXNode :=
  { nodeId := "real", role := "heading", name := some (strL "T"),
    value := none, description := none, level := some 1, url := none,
    focused := false, ignored := false, childIds := [], properties := [] }

/-- The tree with the dangling child id `"dead"`. -/
def dglTree : AXTree :=
  { nodes := [("root", dglRoot), ("real", dglReal)], rootId := some "root" }

/-- C5: the depth-first iterator's `next` uses `?` on the node lookup, so a
dangling id does not get skipped — it ends the whole iteration, dropping
every node still on the stack.  On `dglTree` the iterator yields only the
root, while `children` (which filters dangling ids) and `walk` both still
see the resolvable node: the iterator contradicts the module's own
"treated as absent" handling and its `iterate over all nodes` doc. -/
theorem C5_iterator_stops_at_dangling :
    iterDepthFirst dglTree 10 = [dglRoot]
    ∧ dglTree.childrenOf dglRoot = [dglReal]
    ∧ axWalkF dglTree 10 = some [(dglRoot, 0), (dglReal, 1)] := by
  refine ⟨?_, rfl, ?_⟩ <;> decide

-- ===========================================================================
-- C9
-- ===========================================================================

/-- C9: both final cleanup passes — `cleanup_output` (accessibility
renderer) and `clean_markdown` (HTML renderer) — are idempotent: applying
the cleanup to its own output changes nothing. -/
theorem C9_cleanup_idempotent :
    (∀ s : Str, cleanupOutput (cleanupOutput s) = cleanupOutput s)
    ∧ (∀ s : Str, cleanMarkdown (cleanMarkdown s) = cleanMarkdown s) :=
  ⟨cleanupOutput_idem, cleanMarkdown_idem⟩

-- ===========================================================================
-- C8
-- ===========================================================================

theorem mem_trimL {s : Str} {c : Char} (h : c ∈ trimL s) : c ∈ s := by
  have hf : s = s.takeWhile isWs ++ trimL s :=
    (List.takeWhile_append_dropWhile ..).symm
  rw [hf]
  exact List.mem_append.mpr (Or.inr h)

theorem mem_trimR {s : Str} {c : Char} (h : c ∈ trimR s) : c ∈ s := by
  have hf := trimR_factor s
  rw [hf]
  exact List.mem_append.mpr (Or.inl h)

theorem mem_trimStr {s : Str} {c : Char} (h : c ∈ trimStr s) : c ∈ s :=
  mem_trimL (mem_trimR h)

theorem mem_collapseRunsGo :
    ∀ (f : Nat) (s : Str) (c : Char), c ∈ collapseRunsGo f s →
      c ∈ s ∨ c = '\n' := by
  intro f
  induction f with
  | zero => intro s c h; exact Or.inl h
  | succ g ih =>
    intro s c h
    cases hs3 : startsNl3 s with
    | true =>
      rcases startsNl3_shape hs3 with ⟨rest, rfl⟩
      rw [collapseRunsGo_run] at h
      simp only [List.mem_cons] at h
      rcases h with rfl | h
      · exact Or.inr rfl
      rcases h with rfl | h
      · exact Or.inr rfl
      rcases ih _ c h with hin | hnl
      · left
        have hfac : rest = rest.takeWhile (fun c => decide (c = '\n'))
            ++ rest.dropWhile (fun c => decide (c = '\n')) :=
          (List.takeWhile_append_dropWhile ..).symm
        simp only [List.mem_cons]
        right; right; right
        rw [hfac]
        exact List.mem_append.mpr (Or.inr hin)
      · exact Or.inr hnl
    | false =>
      cases s with
      | nil =>
        rw [collapseRunsGo_nil] at h
        cases h
      | cons d rest =>
        rw [collapseRunsGo_step (g + 1) d rest hs3] at h
        simp only [Nat.add_sub_cancel] at h
        simp only [List.mem_cons] at h
        rcases h with rfl | h
        · exact Or.inl (by simp)
        · rcases ih rest c h with hin | hnl
          · exact Or.inl (by simp [hin])
          · exact Or.inr hnl

theorem mem_collapseRuns {s : Str} {c : Char} (h : c ∈ collapseRuns s) :
    c ∈ s ∨ c = '\n' :=
  mem_collapseRunsGo _ s c h

/-- C8 counterexample: `markdown_to_plain` does NOT strip a header marker on
a later line — the `^#{1,6}\s+` regex is anchored at the start of the whole
input (no multi-line flag), so `"a\n\n# b"` comes back unchanged instead of
`"a\n\nb"`. -/
theorem C8_counterexample :
    markdownToPlain (strL "a\n\n# b") = strL "a\n\n# b"
    ∧ markdownToPlain (strL "a\n\n# b") ≠ strL "a\n\nb" := by
  constructor <;> decide

/-- C8 amended: `markdown_to_plain` strips a header marker only at the very
start of the input, replaces `[text](url)` spans by their text, removes
`**`/`*` pairs, removes every backtick, collapses runs of three or more
newlines to two, and trims; on the spec's concrete input it returns exactly
`"Title\n\nbold link"`, its output never contains a backtick, and never
contains three consecutive newlines. -/
theorem C8_markdown_to_plain :
    markdownToPlain (strL "# Title\n\n**bold** [link](url)")
      = strL "Title\n\nbold link"
    ∧ (∀ s : Str, btick ∉ markdownToPlain s)
    ∧ (∀ s : Str, contains3 (markdownToPlain s) = false) := by
  refine ⟨by decide, ?_, ?_⟩
  · intro s h
    unfold markdownToPlain at h
    have h2 := mem_trimStr h
    rcases mem_collapseRuns h2 with hin | hnl
    · rcases List.mem_filter.mp hin with ⟨_, hpred⟩
      simp at hpred
    · exact absurd hnl (by decide)
  · intro s
    unfold markdownToPlain
    exact contains3_trimStr (collapseRuns_no3 _)

-- ===========================================================================
-- C6
-- ===========================================================================

/-- The heading arm of `convert_node`: block spacing, `#` repeated
`min(level,6)` (as a usize cast), a space, the collected text, `"\n\n"`. -/
theorem convertNodeF_heading (t : AXTree) (fuel : Nat) (st : AxSt)
    (node : AXNode) (hrole : node.role = "heading")
    (hig : node.ignored = false) (txt : Str)
    (htxt : getNodeTextF t fuel node = some (some txt)) :
    convertNodeF t (fuel + 1) st node
      = some { ebs st with
          out := (ebs st).out
            ++ List.replicate (usizeOfInt (min (node.level.getD 1) 6)) '#'
            ++ [' '] ++ txt ++ strL "\n\n",
          lastWasBlock := true } := by
  rw [convertNodeF]
  rw [show shouldSkipButRecurse node = false by
    unfold shouldSkipButRecurse; rw [hrole]; decide]
  rw [show shouldSkipNode node = false by
    unfold shouldSkipNode; rw [hrole, hig]; decide]
  simp only [Bool.false_eq_true, if_false, hrole]
  rw [htxt]

theorem getNodeTextF_name (t : AXTree) (fuel : Nat) (node : AXNode)
    (h : nameNonBlank node = true) :
    getNodeTextF t fuel node = some node.name := by
  unfold getNodeTextF
  rw [h]
  simp

theorem contains3_nlfree_nl2 {u : Str} (hnl : ∀ c ∈ u, c ≠ '\n') :
    contains3 (u ++ ['\n', '\n']) = false := by
  induction u with
  | nil => decide
  | cons c rest ih =>
    rw [List.cons_append, contains3_cons]
    rw [ih (fun x hx => hnl x (by simp [hx]))]
    rw [startsNl3_of_ne _ (hnl c (by simp))]
    rfl

/-- Cleanup of a newline-free block followed by the standard `"\n\n"`
block spacing: one trailing newline remains. -/
theorem cleanupOutput_block (u : Str) (hnl : ∀ c ∈ u, c ≠ '\n')
    (hd : ∀ c, u.head? = some c → isWs c = false)
    (hl : ∀ c, u.getLast? = some c → isWs c = false)
    (hne : u ≠ []) :
    cleanupOutput (u ++ ['\n', '\n']) = u ++ ['\n'] := by
  have hno3 : contains3 (u ++ ['\n', '\n']) = false := contains3_nlfree_nl2 hnl
  obtain ⟨d, hdh⟩ := exists_head hne
  obtain ⟨c, hcl⟩ := exists_getLast hne
  have htrimL : trimL (u ++ ['\n', '\n']) = u ++ ['\n', '\n'] :=
    trimL_eq_of_head (by rw [head?_append_left _ hne]; exact hdh) (hd d hdh)
  have htrimR : trimR (u ++ ['\n', '\n']) = u := by
    rw [trimR_append_ws ['\n', '\n'] (by intro x hx; simp at hx; subst hx; decide)]
    exact trimR_eq_of_getLast hcl (hl c hcl)
  unfold cleanupOutput
  rw [cleanupCollapse_of_no3 hno3]
  have : trimStr (u ++ ['\n', '\n']) = u := by
    unfold trimStr
    rw [htrimL, htrimR]
  rw [this]
  rw [if_neg hne, if_neg]
  rw [hcl]
  intro hx
  have hc : c = '\n' := by injection hx
  subst hc
  exact absurd (hl '\n' hcl) (by decide)

/-- Root of the one-heading tree family. -/
def c6root : AXNode :=
  { nodeId := "root", role := "RootWebArea", name := none, value := none,
    description := none, level := none, url := none, focused := false,
    ignored := false, childIds := ["h1"], properties := [] }

/-- The heading child with level `L` and name `t`. -/
def c6h (L : Int) (t : Str) : AXNode :=
  { nodeId := "h1", role := "heading", name := some t, value := none,
    description := none, level := some L, url := none, focused := false,
    ignored := false, childIds := [], properties := [] }

/-- Tree with a root whose single child is a heading. -/
def headingTree (L : Int) (t : Str) : AXTree :=
  { nodes := [("root", c6root), ("h1", c6h L t)], rootId := some "root" }

/-- C6: a heading with level `L` in 1..6 renders as `'#'` repeated
`min(L,6) = L`, a space, and the node's collected text, block-spaced; after
the final cleanup the tree renders to that line plus one trailing newline,
whose trimmed value is exactly the heading line (in particular
`"# Hello World"` for level 1 and name `"Hello World"` — see the witness). -/
theorem C6_heading_rendering (L : Int) (t : Str)
    (h1 : 1 ≤ L) (h6 : L ≤ 6) (ht : trimStr t = t) (hne : t ≠ [])
    (hnl : ∀ c ∈ t, c ≠ '\n') :
    axTreeToMarkdownF (headingTree L t) 3
      = some (List.replicate L.toNat '#' ++ [' '] ++ t ++ ['\n'], [])
    ∧ trimStr (List.replicate L.toNat '#' ++ [' '] ++ t ++ ['\n'])
      = List.replicate L.toNat '#' ++ [' '] ++ t := by
  have hnb : nameNonBlank (c6h L t) = true := by
    have he : nameNonBlank (c6h L t) = decide (trimStr t ≠ []) := rfl
    rw [he, ht]
    exact decide_eq_true hne
  have htxt : getNodeTextF (headingTree L t) 1 (c6h L t) = some (some t) := by
    rw [getNodeTextF_name _ _ _ hnb]
    rfl
  have harm := convertNodeF_heading (headingTree L t) 1 axSt0 (c6h L t)
    rfl rfl t htxt
  have hlvl : usizeOfInt (min ((c6h L t).level.getD 1) 6) = L.toNat := by
    have hgd : (c6h L t).level.getD 1 = L := rfl
    rw [hgd, min_eq_left h6]
    unfold usizeOfInt
    rw [Int.emod_eq_of_lt (by omega) (by omega)]
  rw [hlvl] at harm
  -- facts about the heading line
  have hnlU : ∀ c ∈ List.replicate L.toNat '#' ++ [' '] ++ t, c ≠ '\n' := by
    intro c hc
    rcases List.mem_append.mp hc with hc2 | hc2
    · rcases List.mem_append.mp hc2 with hc3 | hc3
      · rw [List.eq_of_mem_replicate hc3]; decide
      · simp only [List.mem_singleton] at hc3; subst hc3; decide
    · exact hnl c hc2
  obtain ⟨k, hk⟩ : ∃ k, L.toNat = k + 1 := ⟨L.toNat - 1, by omega⟩
  have hneR : List.replicate L.toNat '#' ++ [' '] ≠ [] := by
    rw [hk, List.replicate_succ, List.cons_append]
    simp
  have hneU : List.replicate L.toNat '#' ++ [' '] ++ t ≠ [] := by
    intro hx
    exact hneR (List.append_eq_nil.mp hx).1
  have hdU : ∀ c, (List.replicate L.toNat '#' ++ [' '] ++ t).head? = some c →
      isWs c = false := by
    intro c hc
    rw [head?_append_left _ hneR] at hc
    rw [hk, List.replicate_succ, List.cons_append, List.head?_cons] at hc
    injection hc with hc2
    subst hc2
    decide
  have hlU : ∀ c, (List.replicate L.toNat '#' ++ [' '] ++ t).getLast? = some c →
      isWs c = false := by
    intro c hc
    rw [List.getLast?_append_of_ne_nil _ hne] at hc
    exact trimStr_getLast_not (s := t) (by rw [ht]; exact hc)
  have hraw : axConvertRawF (headingTree L t) 3
      = some
        { out := List.replicate L.toNat '#' ++ [' '] ++ t ++ strL "\n\n",
          links := [], listDepth := 0, listCounters := [],
          inCodeBlock := false, lastWasBlock := true } := by
    have hs1 : axConvertRawF (headingTree L t) 3
        = convertListF (convertNodeF (headingTree L t) 2) axSt0
            ((headingTree L t).childrenOf c6root) := rfl
    have hch : (headingTree L t).childrenOf c6root = [c6h L t] := rfl
    rw [hs1, hch, convertListF, harm]
    rfl
  constructor
  · have hcl : cleanupOutput
        (List.replicate L.toNat '#' ++ [' '] ++ t ++ strL "\n\n")
        = List.replicate L.toNat '#' ++ [' '] ++ t ++ ['\n'] := by
      have he : List.replicate L.toNat '#' ++ [' '] ++ t ++ strL "\n\n"
          = (List.replicate L.toNat '#' ++ [' '] ++ t) ++ ['\n', '\n'] := rfl
      rw [he, cleanupOutput_block _ hnlU hdU hlU hneU]
    unfold axTreeToMarkdownF
    rw [hraw]
    show some (cleanupOutput
        (List.replicate L.toNat '#' ++ [' '] ++ t ++ strL "\n\n"),
        ([] : List Link)) = _
    rw [hcl]
  · obtain ⟨c, hcl⟩ := exists_getLast hneU
    have htrimL : trimL ((List.replicate L.toNat '#' ++ [' '] ++ t) ++ ['\n'])
        = (List.replicate L.toNat '#' ++ [' '] ++ t) ++ ['\n'] := by
      apply trimL_eq_of_head (c := '#')
      · rw [head?_append_left _ hneU, head?_append_left _ hneR]
        rw [hk, List.replicate_succ, List.cons_append, List.head?_cons]
      · decide
    have htrimR : trimR ((List.replicate L.toNat '#' ++ [' '] ++ t) ++ ['\n'])
        = List.replicate L.toNat '#' ++ [' '] ++ t := by
      rw [trimR_append_ws ['\n'] (by intro x hx; simp at hx; subst hx; decide)]
      exact trimR_eq_of_getLast hcl (hlU c hcl)
    have he2 : List.replicate L.toNat '#' ++ [' '] ++ t ++ ['\n']
        = (List.replicate L.toNat '#' ++ [' '] ++ t) ++ ['\n'] := rfl
    rw [he2]
    unfold trimStr
    rw [htrimL, htrimR]

/-- Witness for C6 at level 1 and name `"Hello World"`. -/
theorem C6_heading_rendering_witness :
    axTreeToMarkdownF (headingTree 1 (strL "Hello World")) 3
      = some (List.replicate (Int.toNat 1) '#' ++ [' '] ++ strL "Hello World"
          ++ ['\n'], [])
    ∧ trimStr (List.replicate (Int.toNat 1) '#' ++ [' '] ++ strL "Hello World"
        ++ ['\n'])
      = List.replicate (Int.toNat 1) '#' ++ [' '] ++ strL "Hello World" :=
  C6_heading_rendering 1 (strL "Hello World") (by decide) (by decide)
    (by decide) (by decide) (by decide)

-- ===========================================================================
-- C10
-- ===========================================================================

/-- C10: a link node whose collected text is empty (`get_node_text` returns
nothing: blank name and no StaticText descendant text) leaves the state
untouched — no markdown output, no recorded Link — even when the node
carries a URL. -/
theorem C10_empty_link (t : AXTree) (fuel : Nat) (st : AxSt) (node : AXNode)
    (hrole : node.role = "link")
    (htxt : getNodeTextF t fuel node = some none) :
    convertNodeF t (fuel + 1) st node = some st := by
  rw [convertNodeF]
  rw [show shouldSkipButRecurse node = false by
    unfold shouldSkipButRecurse; rw [hrole]; decide]
  cases hig : node.ignored with
  | true =>
    rw [show shouldSkipNode node = true by
      unfold shouldSkipNode; rw [hig]; rfl]
    simp
  | false =>
    rw [show shouldSkipNode node = false by
      unfold shouldSkipNode; rw [hig, hrole]; decide]
    simp only [Bool.false_eq_true, if_false, hrole]
    rw [htxt]
    rfl

/-- Witness link node: no name, a URL, no children. -/
def w10 : AXNode :=
  { nodeId := "l", role := "link", name := none, value := none,
    description := none, level := none, url := some (strL "https://example.com"),
    focused := false, ignored := false, childIds := [], properties := [] }

/-- Witness tree (empty). -/
def w10tree : AXTree := { nodes := [], rootId := none }

theorem C10_empty_link_witness :
    getNodeTextF w10tree 1 w10 = some none
    ∧ w10.url = some (strL "https://example.com")
    ∧ convertNodeF w10tree 2 axSt0 w10 = some axSt0 :=
  ⟨by decide, by decide, C10_empty_link w10tree 1 axSt0 w10 rfl (by decide)⟩

-- ===========================================================================
-- C3
-- ===========================================================================

/-- C3 counterexample document: a short first `<article>`, a long second
`<article>` (trimmed text > 100 chars), and a long `<main>`. -/
def c3long : Str :=
  strL "This is a long body of article text that definitely exceeds the one hundred character threshold used by the selector."

/-- The counterexample document. -/
def c3doc : HNode :=
  .elem "html" []
    [.elem "body" []
      [.elem "article" [] [.text (strL "short")],
       .elem "article" [] [.text c3long],
       .elem "main" [] [.text c3long]]]

/-- C3 counterexample: the document contains an `<article>` whose trimmed
text exceeds 100 characters, yet `find_main_content` returns the `<main>`
element — only the FIRST `<article>` match is ever tested, and here it is
too short, so the loop falls through. -/
theorem C3_counterexample :
    ((subElems c3doc).filter
        (fun n => tagIs "article" n && hasMeaningfulContent n)).length = 1
    ∧ (findMainContent c3doc).toOption.map HNode.tagOf
      = some (some "main") := by
  constructor <;> rfl

/-- C3 amended: if the FIRST `<article>` in document order has more than
100 characters of trimmed text, `find_main_content` returns it, regardless
of any `<main>` element (article is the highest-priority selector). -/
theorem C3_first_article (doc : HNode) (a : HNode)
    (h1 : selectFirst doc (.tag "article") = some a)
    (h2 : hasMeaningfulContent a = true) :
    findMainContent doc = .ok a := by
  have h3 : trySelectors doc prioritySelectors = some a := by
    rw [prioritySelectors, trySelectors, h1]
    simp [h2]
  unfold findMainContent
  rw [h3]

/-- Witness document whose first article is long. -/
def c3wdoc : HNode :=
  .elem "html" []
    [.elem "body" []
      [.elem "article" [] [.text c3long],
       .elem "main" [] [.text (strL "short main")]]]

/-- The article of the witness document. -/
def c3wart : HNode := .elem "article" [] [.text c3long]

theorem C3_first_article_witness :
    selectFirst c3wdoc (.tag "article") = some c3wart
    ∧ hasMeaningfulContent c3wart = true
    ∧ findMainContent c3wdoc = .ok c3wart :=
  ⟨rfl, by decide, C3_first_article c3wdoc c3wart rfl (by decide)⟩

-- ===========================================================================
-- C7
-- ===========================================================================

theorem count_of_not_mem {x : Char} {l : Str} (h : x ∉ l) :
    List.count x l = 0 :=
  List.count_eq_zero.mpr h

theorem count_replicate_ne {x c : Char} (n : Nat) (h : x ≠ c) :
    List.count x (List.replicate n c) = 0 :=
  count_of_not_mem (fun hm => h (List.eq_of_mem_replicate hm))

theorem count_padCell {x : Char} {cell : Str} (w : Nat) (hx : x ∉ cell)
    (hs : x ≠ ' ') : List.count x (padCell cell w) = 0 := by
  unfold padCell
  rw [List.count_append, count_of_not_mem hx, count_replicate_ne _ hs]

theorem beq_head_eq_false {a b : Char} (h : a ≠ b) : (b == a) = false := by
  cases hb : b == a with
  | false => rfl
  | true => exact absurd (beq_iff_eq.mp hb) (Ne.symm h)

theorem count_space_bar {x : Char} (hs : x ≠ ' ') :
    List.count x (strL " |") = List.count x ['|'] := by
  rw [show strL " |" = [' ', '|'] from rfl]
  rw [show ([' ', '|'] : Str) = [' '] ++ ['|'] from rfl]
  rw [List.count_append, List.count_singleton, beq_head_eq_false hs]
  simp

theorem count_axCells {x : Char} (hs : x ≠ ' ') :
    ∀ (row : List Str) (ws : List Nat),
      (∀ cell ∈ row, x ∉ cell) → row.length ≤ ws.length →
      List.count x (axCells row ws) = row.length * List.count x ['|'] := by
  intro row
  induction row with
  | nil => intro ws _ _; simp [axCells]
  | cons cell cs ih =>
    intro ws hcells hlen
    cases ws with
    | nil => simp at hlen
    | cons w ws2 =>
      rw [axCells]
      rw [List.count_append, List.count_append]
      rw [List.count_cons]
      rw [count_padCell w (hcells cell (by simp)) hs]
      rw [ih ws2 (fun c hc => hcells c (by simp [hc])) (by simpa using hlen)]
      rw [beq_head_eq_false hs, count_space_bar hs]
      simp only [Bool.false_eq_true, if_false, List.length_cons]
      rw [Nat.succ_mul]
      omega

theorem count_axMissing {x : Char} (hs : x ≠ ' ') :
    ∀ (ws : List Nat),
      List.count x (axMissing ws) = ws.length * List.count x ['|'] := by
  intro ws
  induction ws with
  | nil => simp [axMissing]
  | cons w ws2 ih =>
    have he : axMissing (w :: ws2)
        = ((' ' :: List.replicate w ' ') ++ strL " |") ++ axMissing ws2 := by
      unfold axMissing
      simp [List.map_cons]
    rw [he, List.count_append, List.count_append, List.count_cons]
    rw [count_replicate_ne _ hs]
    rw [ih, beq_head_eq_false hs, count_space_bar hs]
    simp only [Bool.false_eq_true, if_false, List.length_cons]
    rw [Nat.succ_mul]
    omega

theorem count_sepLine {x : Char} (hs : x ≠ ' ') (hd : x ≠ '-') :
    ∀ (ws : List Nat),
      List.count x (sepLine ws) = (1 + ws.length) * List.count x ['|'] := by
  have haux : ∀ (ws : List Nat),
      List.count x ((ws.map (fun w => (' ' :: List.replicate w '-')
        ++ strL " |")).flatten) = ws.length * List.count x ['|'] := by
    intro ws
    induction ws with
    | nil => simp
    | cons w ws2 ih =>
      rw [List.map_cons, List.flatten_cons, List.count_append, ih]
      rw [List.count_append, List.count_cons]
      rw [count_replicate_ne _ hd]
      rw [beq_head_eq_false hs, count_space_bar hs]
      simp only [Bool.false_eq_true, if_false, List.length_cons]
      rw [Nat.succ_mul]
      omega
  intro ws
  unfold sepLine
  rw [List.count_cons, haux ws]
  rw [List.count_singleton]
  cases hb : ('|' == x) with
  | false => simp
  | true =>
    simp only [if_true]
    omega

theorem not_mem_getD_cell {x : Char} {row : List Str} (i : Nat)
    (h : ∀ cell ∈ row, x ∉ cell) : x ∉ row.getD i [] := by
  unfold List.getD
  cases hg : row.get? i with
  | none => simp
  | some cell =>
    simp only [Option.getD_some]
    exact h cell (List.get?_mem hg)

theorem count_htmlCells {x : Char} (hs : x ≠ ' ')
    {row : List Str} (hcells : ∀ cell ∈ row, x ∉ cell) :
    ∀ (ws : List Nat) (i : Nat),
      List.count x (htmlCells row ws i) = ws.length * List.count x ['|'] := by
  intro ws
  induction ws with
  | nil => intro i; simp [htmlCells]
  | cons w ws2 ih =>
    intro i
    rw [htmlCells]
    rw [List.count_append, List.count_append, List.count_cons]
    rw [count_padCell w (not_mem_getD_cell i hcells) hs]
    rw [ih (i + 1), beq_head_eq_false hs, count_space_bar hs]
    simp only [Bool.false_eq_true, if_false, List.length_cons]
    rw [Nat.succ_mul]
    omega

theorem count_axDataLine {x : Char} (hs : x ≠ ' ')
    {widths : List Nat} {row : List Str}
    (hcells : ∀ cell ∈ row, x ∉ cell) (hlen : row.length ≤ widths.length) :
    List.count x (axDataLine widths row)
      = (1 + widths.length) * List.count x ['|'] := by
  unfold axDataLine
  rw [List.count_cons, List.count_append]
  rw [count_axCells hs row widths hcells hlen]
  rw [count_axMissing hs]
  rw [List.length_drop]
  cases hb : ('|' == x) with
  | false =>
    have h0 : List.count x ['|'] = 0 := by
      rw [List.count_singleton, hb]
      rfl
    rw [h0]
    simp
  | true =>
    have h1 : List.count x ['|'] = 1 := by
      rw [List.count_singleton, hb]
      rfl
    rw [h1]
    simp only [if_true, Nat.mul_one]
    omega

theorem count_htmlRowLine {x : Char} (hs : x ≠ ' ')
    {widths : List Nat} {row : List Str}
    (hcells : ∀ cell ∈ row, x ∉ cell) :
    List.count x (htmlRowLine widths row)
      = (1 + widths.length) * List.count x ['|'] := by
  unfold htmlRowLine
  rw [List.count_cons, count_htmlCells hs hcells]
  cases hb : ('|' == x) with
  | false =>
    have h0 : List.count x ['|'] = 0 := by
      rw [List.count_singleton, hb]
      rfl
    rw [h0]
    simp
  | true =>
    have h1 : List.count x ['|'] = 1 := by
      rw [List.count_singleton, hb]
      rfl
    rw [h1]
    simp only [if_true, Nat.mul_one]
    omega

theorem mem_axTableLinesGo {widths : List Nat} {hr : Option Nat} :
    ∀ (idx : Nat) (rows : List (List Str)) (l : Str),
      l ∈ axTableLinesGo widths hr idx rows →
      (∃ row ∈ rows, l = axDataLine widths row) ∨ l = sepLine widths := by
  intro idx rows
  induction rows generalizing idx with
  | nil => intro l h; cases h
  | cons row rest ih =>
    intro l h
    rw [axTableLinesGo] at h
    rcases List.mem_append.mp h with h1 | h2
    · have h3 : l = axDataLine widths row ∨ l = sepLine widths := by
        by_cases hc : (decide (hr = some idx)
            || hr.isNone && decide (idx = 0)) = true
        · rw [if_pos hc] at h1
          simpa using h1
        · rw [if_neg hc] at h1
          simp only [List.mem_singleton] at h1
          exact Or.inl h1
      rcases h3 with he | he
      · exact Or.inl ⟨row, by simp, he⟩
      · exact Or.inr he
    · rcases ih (idx + 1) l h2 with ⟨r, hr2, he⟩ | he
      · exact Or.inl ⟨r, by simp [hr2], he⟩
      · exact Or.inr he

theorem mem_htmlTableLinesGo {widths : List Nat} {hh : Bool} :
    ∀ (idx : Nat) (rows : List (List Str)) (l : Str),
      l ∈ htmlTableLinesGo widths hh idx rows →
      (∃ row ∈ rows, l = htmlRowLine widths row) ∨ l = sepLine widths := by
  intro idx rows
  induction rows generalizing idx with
  | nil => intro l h; cases h
  | cons row rest ih =>
    intro l h
    rw [htmlTableLinesGo] at h
    rcases List.mem_append.mp h with h1 | h2
    · have h3 : l = htmlRowLine widths row ∨ l = sepLine widths := by
        by_cases hc : (decide (idx = 0) && hh) = true
        · rw [if_pos hc] at h1
          simpa using h1
        · rw [if_neg hc] at h1
          simp only [List.mem_singleton] at h1
          exact Or.inl h1
      rcases h3 with he | he
      · exact Or.inl ⟨row, by simp, he⟩
      · exact Or.inr he
    · rcases ih (idx + 1) l h2 with ⟨r, hr2, he⟩ | he
      · exact Or.inl ⟨r, by simp [hr2], he⟩
      · exact Or.inr he
theorem foldl_max_init_le : ∀ (l : List Nat) (init : Nat), init ≤ l.foldl max init := by
  intro l
  induction l with
  | nil => intro init; exact le_refl _
  | cons b t ih =>
    intro init
    rw [List.foldl_cons]
    exact le_trans (le_max_left init b) (ih (max init b))

theorem foldl_max_le_mem {l : List Nat} {a : Nat} (h : a ∈ l) :
    ∀ init, a ≤ l.foldl max init := by
  induction l with
  | nil => cases h
  | cons b t ih =>
    intro init
    rw [List.foldl_cons]
    simp only [List.mem_cons] at h
    rcases h with rfl | h
    · exact le_trans (le_max_right init a) (foldl_max_init_le t (max init a))
    · exact ih h _

theorem length_le_numColsOf {rows : List (List Str)} {row : List Str}
    (h : row ∈ rows) : row.length ≤ numColsOf rows := by
  unfold numColsOf
  exact foldl_max_le_mem (List.mem_map_of_mem List.length h) 0

theorem updWidths_cons_cons (w : Nat) (ws : List Nat) (c : Str) (cs : List Str) :
    updWidths (w :: ws) (c :: cs) = max w c.length :: updWidths ws cs := rfl

theorem updWidths_nil_right (ws : List Nat) : updWidths ws [] = ws := by
  cases ws <;> simp [updWidths]

theorem updWidths_length : ∀ (ws : List Nat) (cells : List Str),
    (updWidths ws cells).length = ws.length := by
  intro ws
  induction ws with
  | nil => intro cells; cases cells <;> simp [updWidths]
  | cons w ws2 ih =>
    intro cells
    cases cells with
    | nil => rw [updWidths_nil_right]
    | cons c cs => rw [updWidths_cons_cons]; simp [ih]

theorem updWidths_getD_le : ∀ (ws : List Nat) (cells : List Str) (j : Nat),
    ws.getD j 0 ≤ (updWidths ws cells).getD j 0 := by
  intro ws
  induction ws with
  | nil => intro cells j; cases cells <;> simp [updWidths]
  | cons w ws2 ih =>
    intro cells j
    cases cells with
    | nil => rw [updWidths_nil_right]
    | cons c cs =>
      rw [updWidths_cons_cons]
      cases j with
      | zero => simpa using le_max_left w c.length
      | succ j2 => simpa using ih cs j2

theorem updWidths_getD_cell : ∀ (ws : List Nat) (cells : List Str) (j : Nat),
    j < ws.length → j < cells.length →
    (cells.getD j []).length ≤ (updWidths ws cells).getD j 0 := by
  intro ws
  induction ws with
  | nil => intro cells j h1 _; simp at h1
  | cons w ws2 ih =>
    intro cells j h1 h2
    cases cells with
    | nil => simp at h2
    | cons c cs =>
      rw [updWidths_cons_cons]
      cases j with
      | zero => simpa using le_max_right w c.length
      | succ j2 =>
        simp only [List.getD_cons_succ]
        exact ih cs j2 (by simpa using h1) (by simpa using h2)

theorem foldl_updWidths_length : ∀ (rows : List (List Str)) (ws : List Nat),
    (rows.foldl updWidths ws).length = ws.length := by
  intro rows
  induction rows with
  | nil => intro ws; rfl
  | cons r rs ih =>
    intro ws
    rw [List.foldl_cons, ih, updWidths_length]

theorem colWidthsOf_length (rows : List (List Str)) (n : Nat) :
    (colWidthsOf rows n).length = n := by
  unfold colWidthsOf
  rw [foldl_updWidths_length, List.length_replicate]

theorem foldl_updWidths_getD_le :
    ∀ (rows : List (List Str)) (ws : List Nat) (j : Nat),
      ws.getD j 0 ≤ (rows.foldl updWidths ws).getD j 0 := by
  intro rows
  induction rows with
  | nil => intro ws j; exact le_refl _
  | cons r rs ih =>
    intro ws j
    rw [List.foldl_cons]
    exact le_trans (updWidths_getD_le ws r j) (ih _ j)

theorem replicate_getD (a d : Nat) : ∀ n j, j < n → (List.replicate n a).getD j d = a := by
  intro n
  induction n with
  | zero => intro j h; omega
  | succ m ih =>
    intro j h
    rw [List.replicate_succ]
    cases j with
    | zero => simp
    | succ j2 => simpa using ih j2 (by omega)

theorem colWidthsOf_ge3 (rows : List (List Str)) (n : Nat) {j : Nat} (hj : j < n) :
    3 ≤ (colWidthsOf rows n).getD j 0 := by
  unfold colWidthsOf
  refine le_trans ?_ (foldl_updWidths_getD_le rows _ j)
  rw [replicate_getD 3 0 n j hj]

theorem colWidthsOf_cell_le {rows : List (List Str)} {row : List Str}
    (hrow : row ∈ rows) {n : Nat} (j : Nat) (hjn : j < n) :
    (row.getD j []).length ≤ (colWidthsOf rows n).getD j 0 := by
  by_cases hj : j < row.length
  · obtain ⟨l1, l2, rfl⟩ := List.append_of_mem hrow
    unfold colWidthsOf
    rw [List.foldl_append, List.foldl_cons]
    refine le_trans ?_ (foldl_updWidths_getD_le l2 _ j)
    refine updWidths_getD_cell _ _ j ?_ hj
    rw [foldl_updWidths_length, List.length_replicate]
    exact hjn
  · have he : row.getD j [] = [] := by
      apply List.getD_eq_default
      omega
    rw [he]
    exact Nat.zero_le _
theorem count_pipe_pipe : List.count '|' ['|'] = 1 := by decide

theorem count_nl_pipe : List.count '\n' ['|'] = 0 := by decide

/-- C7 counterexample: cell texts are interpolated into the row verbatim, so a
cell containing a pipe character breaks the equal-column-count property.  For
the single-cell table whose cell text is "a|b" both renderers emit a data row
with 3 pipes but a separator row with only 2, although the table has one
column. -/
theorem C7_counterexample :
    (axTableLines [[strL "a|b"]] none).map (List.count '|') = [3, 2] ∧
    (htmlTableLines [[strL "a|b"]] true).map (List.count '|') = [3, 2] ∧
    numColsOf [[strL "a|b"]] = 1 := by
  decide

/-- C7 (amended): provided no collected cell text contains a pipe or a
newline, every line emitted for a table by either renderer — data rows and the
separator row alike — contains exactly `numCols + 1` pipe characters (hence
the same number of pipe-delimited columns) and no newline, and every column
width is at least 3 and at least the length of every cell stored in that
column. -/
theorem C7_table_alignment (rows : List (List Str)) (hr : Option Nat) (hh : Bool)
    (hcell : ∀ row ∈ rows, ∀ cell ∈ row, '|' ∉ cell ∧ '\n' ∉ cell) :
    (∀ l ∈ axTableLines rows hr,
        List.count '|' l = numColsOf rows + 1 ∧ List.count '\n' l = 0) ∧
    (∀ l ∈ htmlTableLines rows hh,
        List.count '|' l = numColsOf rows + 1 ∧ List.count '\n' l = 0) ∧
    (∀ j, j < numColsOf rows →
        3 ≤ (colWidthsOf rows (numColsOf rows)).getD j 0 ∧
        ∀ row ∈ rows, (row.getD j []).length
          ≤ (colWidthsOf rows (numColsOf rows)).getD j 0) := by
  have hW : (colWidthsOf rows (numColsOf rows)).length = numColsOf rows :=
    colWidthsOf_length rows (numColsOf rows)
  have hsp : ('|' : Char) ≠ ' ' := by decide
  have hsn : ('\n' : Char) ≠ ' ' := by decide
  have hdp : ('|' : Char) ≠ '-' := by decide
  have hdn : ('\n' : Char) ≠ '-' := by decide
  refine ⟨?_, ?_, ?_⟩
  · intro l hl
    rcases mem_axTableLinesGo 0 rows l hl with ⟨row, hrow, rfl⟩ | rfl
    · have hlen : row.length ≤ (colWidthsOf rows (numColsOf rows)).length := by
        rw [hW]; exact length_le_numColsOf hrow
      constructor
      · rw [count_axDataLine hsp (fun c hc => (hcell row hrow c hc).1) hlen]
        rw [count_pipe_pipe, hW]
        omega
      · rw [count_axDataLine hsn (fun c hc => (hcell row hrow c hc).2) hlen]
        rw [count_nl_pipe, Nat.mul_zero]
    · constructor
      · rw [count_sepLine hsp hdp, count_pipe_pipe, hW]
        omega
      · rw [count_sepLine hsn hdn, count_nl_pipe, Nat.mul_zero]
  · intro l hl
    rcases mem_htmlTableLinesGo 0 rows l hl with ⟨row, hrow, rfl⟩ | rfl
    · constructor
      · rw [count_htmlRowLine hsp (fun c hc => (hcell row hrow c hc).1)]
        rw [count_pipe_pipe, hW]
        omega
      · rw [count_htmlRowLine hsn (fun c hc => (hcell row hrow c hc).2)]
        rw [count_nl_pipe, Nat.mul_zero]
    · constructor
      · rw [count_sepLine hsp hdp, count_pipe_pipe, hW]
        omega
      · rw [count_sepLine hsn hdn, count_nl_pipe, Nat.mul_zero]
  · intro j hj
    exact ⟨colWidthsOf_ge3 rows _ hj,
      fun row hrow => colWidthsOf_cell_le hrow j hj⟩

def c7rows : List (List Str) := [[strL "a"], [strL "bbbb", strL "c"]]

theorem C7_table_alignment_witness :
    (∀ row ∈ c7rows, ∀ cell ∈ row, '|' ∉ cell ∧ '\n' ∉ cell) ∧
    ((∀ l ∈ axTableLines c7rows (some 0),
        List.count '|' l = numColsOf c7rows + 1 ∧ List.count '\n' l = 0) ∧
     (∀ l ∈ htmlTableLines c7rows true,
        List.count '|' l = numColsOf c7rows + 1 ∧ List.count '\n' l = 0) ∧
     (∀ j, j < numColsOf c7rows →
        3 ≤ (colWidthsOf c7rows (numColsOf c7rows)).getD j 0 ∧
        ∀ row ∈ c7rows, (row.getD j []).length
          ≤ (colWidthsOf c7rows (numColsOf c7rows)).getD j 0)) :=
  ⟨by decide, C7_table_alignment c7rows (some 0) true (by decide)⟩
def c4base : BaseUrl := { scheme := strL "about", joinWith := fun h => h }

/-- A 58-character sidebar text: long enough for its ancestors to score. -/
def sbText : Str := strL "This sidebar paragraph is long enough to score over fifty."

/-- html > body > div.sidebar, the sidebar holding all the text. -/
def c4doc : HNode :=
  HNode.elem "html" []
    [HNode.elem "body" []
      [HNode.elem "div" [("class", strL "sidebar")] [HNode.text sbText]]]

/-- C4 counterexample: on `c4doc` no priority selector fires, so extraction
takes the scored fallback.  The scorer refuses the sidebar div itself
(`negClassAttr`), but the surviving candidate is its ancestor `<body>`, and
the RENDERER has no sidebar exclusion: the final Markdown is exactly the
sidebar's text (plus the trailing newline), so text inside an element whose
class contains "sidebar" does appear in the fallback output. -/
theorem C4_counterexample :
    trySelectors c4doc prioritySelectors = none ∧
    negClassAttr [("class", strL "sidebar")] = true ∧
    extractContentTextF c4base 40 c4doc = some (.ok (sbText ++ ['\n'])) ∧
    containsSub sbText (sbText ++ ['\n']) = true :=
  ⟨by rfl, by decide, by rfl, by decide⟩

theorem scoreElement_neg {tag : String} {attrs : List (String × Str)}
    {kids : List HNode} (m : List (String × (Int × HNode))) (depth : Nat)
    (hneg : negClassAttr attrs = true) :
    scoreElement (.elem tag attrs kids) m depth = m := by
  rw [scoreElement]
  cases hskip : skipScoreTag tag with
  | true => simp
  | false => simp [hneg]

theorem scoreElement_skip {tag : String} {attrs : List (String × Str)}
    {kids : List HNode} (m : List (String × (Int × HNode))) (depth : Nat)
    (hskip : skipScoreTag tag = true) :
    scoreElement (.elem tag attrs kids) m depth = m := by
  rw [scoreElement]
  simp [hskip]

/-- C4 (amended): the two exclusion mechanisms that DO hold.  The HTML
renderer drops script/style/noscript/nav/footer/header subtrees entirely
(the skip arm returns the state unchanged), and the scorer never recurses
into — hence never records a candidate under — an element with an excluded
tag or a negative-signal class such as "sidebar".  Nothing, however, removes
a sidebar-classed element nested inside the selected candidate at render
time, which is why the original claim fails. -/
theorem C4_exclusions (base : BaseUrl) (fuel : Nat) (st : HSt)
    (attrs : List (String × Str)) (kids : List HNode)
    (m : List (String × (Int × HNode))) (depth : Nat) (tag : String)
    (hneg : negClassAttr attrs = true) :
    (∀ t, (t = "script" ∨ t = "style" ∨ t = "noscript" ∨ t = "nav"
        ∨ t = "footer" ∨ t = "header") →
      convTagF base (fuel + 1) st t attrs kids = some st) ∧
    scoreElement (.elem tag attrs kids) m depth = m ∧
    (skipScoreTag tag = true →
      ∀ (attrs2 : List (String × Str)) (kids2 : List HNode),
        scoreElement (.elem tag attrs2 kids2) m depth = m) := by
  refine ⟨?_, scoreElement_neg m depth hneg, ?_⟩
  · intro t ht
    rcases ht with rfl | rfl | rfl | rfl | rfl | rfl <;> rfl
  · intro hskip attrs2 kids2
    exact scoreElement_skip m depth hskip

theorem C4_exclusions_witness :
    negClassAttr [("class", strL "sidebar")] = true ∧
    ((∀ t, (t = "script" ∨ t = "style" ∨ t = "noscript" ∨ t = "nav"
        ∨ t = "footer" ∨ t = "header") →
      convTagF c4base 1 hSt0 t [("class", strL "sidebar")] [] = some hSt0) ∧
    scoreElement (.elem "div" [("class", strL "sidebar")] []) [] 0 = [] ∧
    (skipScoreTag "div" = true →
      ∀ (attrs2 : List (String × Str)) (kids2 : List HNode),
        scoreElement (.elem "div" attrs2 kids2) [] 0 = [])) :=
  ⟨by decide,
    C4_exclusions c4base 0 hSt0 [("class", strL "sidebar")] [] [] 0 "div"
      (by decide)⟩
/-- Every recorded link points (strictly inside the buffer) at the literal
opening bracket of its Markdown span. -/
def LinkInvA (out : Str) (links : List Link) : Prop :=
  ∀ l ∈ links, l.position < out.length ∧ out[l.position]? = some '['

theorem linkInvA_append {out : Str} {links : List Link} (s : Str)
    (h : LinkInvA out links) : LinkInvA (out ++ s) links := by
  intro l hl
  obtain ⟨h1, h2⟩ := h l hl
  constructor
  · rw [List.length_append]; omega
  · rw [List.getElem?_append_left h1]; exact h2

theorem linkInvA_push {out : Str} {links : List Link} (rest txt url : Str)
    (h : LinkInvA out links) :
    LinkInvA (out ++ '[' :: rest)
      (links ++ [{ text := txt, url := url, position := out.length }]) := by
  intro l hl
  rw [List.mem_append, List.mem_singleton] at hl
  rcases hl with hl | rfl
  · exact linkInvA_append _ h l hl
  · constructor
    · simp
    · rw [List.getElem?_append_right (le_refl _)]
      simp

theorem linkInvA_link {out : Str} {links : List Link} (txt shown s1 url s2 : Str)
    (h : LinkInvA out links) :
    LinkInvA (out ++ ['['] ++ shown ++ s1 ++ url ++ s2)
      (links ++ [{ text := txt, url := url, position := out.length }]) := by
  have he : out ++ ['['] ++ shown ++ s1 ++ url ++ s2
      = out ++ '[' :: (shown ++ (s1 ++ (url ++ s2))) := by
    simp [List.append_assoc]
  rw [he]
  exact linkInvA_push _ txt url h

theorem linkInvA_ebsOut {out : Str} {links : List Link} (b : Bool)
    (h : LinkInvA out links) : LinkInvA (ebsOut out b) links := by
  unfold ebsOut
  split
  · exact h
  · split
    · exact h
    · split
      · exact linkInvA_append _ h
      · exact linkInvA_append _ h
theorem convertNodeF_linkInv (t : AXTree) : ∀ fuel (st : AxSt) (node : AXNode) (st' : AxSt),
    convertNodeF t fuel st node = some st' →
    LinkInvA st.out st.links → LinkInvA st'.out st'.links := by
  intro fuel
  induction fuel with
  | zero => intro st node st' h hi; rw [convertNodeF] at h; cases h
  | succ fuel ih =>
    have ihL : ∀ (ns : List AXNode) (st st' : AxSt),
        convertListF (convertNodeF t fuel) st ns = some st' →
        LinkInvA st.out st.links → LinkInvA st'.out st'.links := by
      intro ns
      induction ns with
      | nil =>
        intro st st' h hi
        rw [convertListF] at h
        cases h
        exact hi
      | cons n ns ihn =>
        intro st st' h hi
        rw [convertListF] at h
        cases hc : convertNodeF t fuel st n with
        | none => rw [hc] at h; cases h
        | some st2 => rw [hc] at h; exact ihn st2 st' h (ih st n st2 hc hi)
    intro st node st' h hi
    rw [convertNodeF] at h
    split at h
    · exact ihL _ _ _ h hi
    · split at h
      · cases h; exact hi
      · split at h
        all_goals try simp only [] at h
        -- RootWebArea / WebArea / document
        · exact ihL _ _ _ h hi
        · exact ihL _ _ _ h hi
        · exact ihL _ _ _ h hi
        -- heading
        · split at h
          · cases h
          · cases h
            exact linkInvA_ebsOut _ hi
          · cases h
            exact linkInvA_append _ (linkInvA_append _ (linkInvA_append _
              (linkInvA_append _ (linkInvA_ebsOut _ hi))))
        -- paragraph
        · split at h
          · split at h
            · cases h
            · rename_i st2 heq
              cases h
              exact linkInvA_append _ (ihL _ _ _ heq (linkInvA_ebsOut _ hi))
          · split at h
            · cases h
            · cases h
              exact hi
            · split at h
              · cases h
                exact hi
              · cases h
                exact linkInvA_append _ (linkInvA_append _ (linkInvA_ebsOut _ hi))
        -- link
        · split at h
          · cases h
          · split at h
            · cases h
              exact hi
            · cases h
              exact linkInvA_link _ _ _ _ _ hi
        -- list
        · split at h
          · cases h
          · rename_i st3 heq
            have h3 : LinkInvA st3.out st3.links :=
              ihL _ _ _ heq (linkInvA_ebsOut _ hi)
            split at h
            · cases h
              exact linkInvA_append _ h3
            · cases h
              exact h3
        -- listitem
        · split at h
          · cases h
          · cases h
            exact linkInvA_append _ (linkInvA_append _
              (linkInvA_append _ (linkInvA_append _ hi)))
          · split at h
            · cases h
            · rename_i st2 heq
              cases h
              exact linkInvA_append _ (ihL _ _ _ heq
                (linkInvA_append _ (linkInvA_append _ hi)))
        -- blockquote
        · split at h
          · cases h
          · cases h
            exact linkInvA_append _ (linkInvA_append _ (linkInvA_ebsOut _ hi))
        -- code
        · split at h
          · split at h
            · cases h
            · cases h
              exact linkInvA_append _ hi
          · split at h
            · cases h
            · split at h
              · cases h
                exact linkInvA_append _ (linkInvA_append _ (linkInvA_append _
                  (linkInvA_append _ (linkInvA_ebsOut _ hi))))
              · cases h
                exact linkInvA_append _ (linkInvA_append _ (linkInvA_append _ hi))
        -- pre
        · split at h
          · split at h
            · cases h
            · cases h
              exact linkInvA_append _ hi
          · split at h
            · cases h
            · split at h
              · cases h
                exact linkInvA_append _ (linkInvA_append _ (linkInvA_append _
                  (linkInvA_append _ (linkInvA_ebsOut _ hi))))
              · cases h
                exact linkInvA_append _ (linkInvA_append _ (linkInvA_append _ hi))
        -- image
        · split at h
          · cases h
            exact hi
          · cases h
            exact linkInvA_append _ (linkInvA_append _ (linkInvA_append _
              (linkInvA_append _ (linkInvA_append _ hi))))
        -- img
        · split at h
          · cases h
            exact hi
          · cases h
            exact linkInvA_append _ (linkInvA_append _ (linkInvA_append _
              (linkInvA_append _ (linkInvA_append _ hi))))
        -- table
        · split at h
          · cases h
          · cases h
            exact linkInvA_append _ (linkInvA_append _ (linkInvA_ebsOut _ hi))
        -- separator
        · cases h
          exact linkInvA_append _ (linkInvA_ebsOut _ hi)
        -- strong
        · split at h
          · cases h
          · cases h
            exact linkInvA_append _ (linkInvA_append _ (linkInvA_append _ hi))
          · split at h
            · cases h
            · rename_i st2 heq
              cases h
              exact linkInvA_append _ (ihL _ _ _ heq (linkInvA_append _ hi))
        -- emphasis
        · split at h
          · cases h
          · cases h
            exact linkInvA_append _ (linkInvA_append _ (linkInvA_append _ hi))
          · split at h
            · cases h
            · rename_i st2 heq
              cases h
              exact linkInvA_append _ (ihL _ _ _ heq (linkInvA_append _ hi))
        -- StaticText
        · split at h
          · cases h
            exact linkInvA_append _ hi
          · cases h
            exact hi
        -- InlineTextBox
        · cases h
          exact hi
        -- generic / group / section / article / main / region
        · exact ihL _ _ _ h hi
        · exact ihL _ _ _ h hi
        · exact ihL _ _ _ h hi
        · exact ihL _ _ _ h hi
        · exact ihL _ _ _ h hi
        · exact ihL _ _ _ h hi
        -- textbox / searchbox
        · cases h
          exact linkInvA_append _ (linkInvA_append _ (linkInvA_append _ hi))
        · cases h
          exact linkInvA_append _ (linkInvA_append _ (linkInvA_append _ hi))
        -- button
        · cases h
          exact linkInvA_append _ (linkInvA_append _ (linkInvA_append _ hi))
        -- checkbox
        · cases h
          exact linkInvA_append _ (linkInvA_append _ (linkInvA_append _ hi))
        -- navigation .. menuitem
        · cases h
          exact hi
        · cases h
          exact hi
        · cases h
          exact hi
        · cases h
          exact hi
        · cases h
          exact hi
        · cases h
          exact hi
        · cases h
          exact hi
        · cases h
          exact hi
        · cases h
          exact hi
        · cases h
          exact hi
        -- catch-all
        · split at h
          · cases h
          · split at h
            · cases h
              exact hi
            · cases h
              exact linkInvA_append _ hi
          · exact ihL _ _ _ h hi
theorem linkInvA_ensureNl {out : Str} {links : List Link} (k : Nat)
    (h : LinkInvA out links) : LinkInvA (ensureNl out k) links :=
  linkInvA_append _ h

theorem linkInvA_ite {c : Prop} [Decidable c] {a b : Str} {links : List Link}
    (ha : LinkInvA a links) (hb : LinkInvA b links) :
    LinkInvA (if c then a else b) links := by
  split
  · exact ha
  · exact hb

mutual

/-- No `<table>` element anywhere in the subtree. -/
def tableFree : HNode → Bool
  | .text _ => true
  | .elem tag _ kids => decide (tag ≠ "table") && tableFreeList kids

/-- `tableFree` over a list of nodes. -/
def tableFreeList : List HNode → Bool
  | [] => true
  | n :: ns => tableFree n && tableFreeList ns

end

set_option maxHeartbeats 3200000 in
theorem htmlInvAux (base : BaseUrl) : ∀ fuel : Nat,
    (∀ (st : HSt) (n : HNode) (st' : HSt), tableFree n = true →
      convNodeF base fuel st n = some st' →
      LinkInvA st.out st.links → LinkInvA st'.out st'.links) ∧
    (∀ (st : HSt) (tag : String) (attrs : List (String × Str))
        (kids : List HNode) (st' : HSt),
      tag ≠ "table" → tableFreeList kids = true →
      convTagF base fuel st tag attrs kids = some st' →
      LinkInvA st.out st.links → LinkInvA st'.out st'.links) ∧
    (∀ (st : HSt) (ns : List HNode) (st' : HSt), tableFreeList ns = true →
      convNodesF base fuel st ns = some st' →
      LinkInvA st.out st.links → LinkInvA st'.out st'.links) := by
  intro fuel
  induction fuel with
  | zero =>
    refine ⟨?_, ?_, ?_⟩
    · intro st n st' _ h _
      rw [convNodeF] at h
      cases h
    · intro st tag attrs kids st' _ _ h _
      rw [convTagF] at h
      cases h
    · intro st ns st' _ h _
      rw [convNodesF] at h
      cases h
  | succ fuel ih =>
    obtain ⟨ihN, ihT, ihL⟩ := ih
    refine ⟨?_, ?_, ?_⟩
    · intro st n st' htf h hi
      cases n with
      | text s =>
        rw [convNodeF] at h
        simp only [] at h
        cases h
        exact linkInvA_ite (linkInvA_append _ hi)
          (linkInvA_ite hi (linkInvA_append _ hi))
      | elem tag attrs kids =>
        rw [convNodeF] at h
        rw [tableFree] at htf
        simp only [Bool.and_eq_true, decide_eq_true_eq] at htf
        exact ihT st tag attrs kids st' htf.1 htf.2 h hi
    · intro st tag attrs kids st' htag hkids h hi
      rw [convTagF.eq_def] at h
      simp only [] at h
      split at h
      · cases h
        exact hi
      · cases h
        exact hi
      · cases h
        exact hi
      · cases h
        exact hi
      · cases h
        exact hi
      · cases h
        exact hi
      · split at h
        · cases h
        · rename_i st2 heq
          cases h
          have h2 := ihL _ _ _ hkids heq (by
            repeat first
              | exact hi
              | apply linkInvA_append
              | apply linkInvA_ensureNl
              | apply linkInvA_ite)
          repeat first
            | exact h2
            | apply linkInvA_append
            | apply linkInvA_ensureNl
            | apply linkInvA_ite
      · split at h
        · cases h
        · rename_i st2 heq
          cases h
          have h2 := ihL _ _ _ hkids heq (by
            repeat first
              | exact hi
              | apply linkInvA_append
              | apply linkInvA_ensureNl
              | apply linkInvA_ite)
          repeat first
            | exact h2
            | apply linkInvA_append
            | apply linkInvA_ensureNl
            | apply linkInvA_ite
      · split at h
        · cases h
        · rename_i st2 heq
          cases h
          have h2 := ihL _ _ _ hkids heq (by
            repeat first
              | exact hi
              | apply linkInvA_append
              | apply linkInvA_ensureNl
              | apply linkInvA_ite)
          repeat first
            | exact h2
            | apply linkInvA_append
            | apply linkInvA_ensureNl
            | apply linkInvA_ite
      · split at h
        · cases h
        · rename_i st2 heq
          cases h
          have h2 := ihL _ _ _ hkids heq (by
            repeat first
              | exact hi
              | apply linkInvA_append
              | apply linkInvA_ensureNl
              | apply linkInvA_ite)
          repeat first
            | exact h2
            | apply linkInvA_append
            | apply linkInvA_ensureNl
            | apply linkInvA_ite
      · split at h
        · cases h
        · rename_i st2 heq
          cases h
          have h2 := ihL _ _ _ hkids heq (by
            repeat first
              | exact hi
              | apply linkInvA_append
              | apply linkInvA_ensureNl
              | apply linkInvA_ite)
          repeat first
            | exact h2
            | apply linkInvA_append
            | apply linkInvA_ensureNl
            | apply linkInvA_ite
      · split at h
        · cases h
        · rename_i st2 heq
          cases h
          have h2 := ihL _ _ _ hkids heq (by
            repeat first
              | exact hi
              | apply linkInvA_append
              | apply linkInvA_ensureNl
              | apply linkInvA_ite)
          repeat first
            | exact h2
            | apply linkInvA_append
            | apply linkInvA_ensureNl
            | apply linkInvA_ite
      · split at h
        · cases h
        · rename_i st2 heq
          cases h
          have h2 := ihL _ _ _ hkids heq (by
            repeat first
              | exact hi
              | apply linkInvA_append
              | apply linkInvA_ensureNl
              | apply linkInvA_ite)
          repeat first
            | exact h2
            | apply linkInvA_append
            | apply linkInvA_ensureNl
            | apply linkInvA_ite
      · split at h
        · cases h
        · rename_i st2 heq
          cases h
          have h2 := ihL _ _ _ hkids heq (by
            repeat first
              | exact hi
              | apply linkInvA_append
              | apply linkInvA_ensureNl
              | apply linkInvA_ite)
          repeat first
            | exact h2
            | apply linkInvA_append
            | apply linkInvA_ensureNl
            | apply linkInvA_ite
      · split at h
        · cases h
        · rename_i st2 heq
          cases h
          have h2 := ihL _ _ _ hkids heq (by
            repeat first
              | exact hi
              | apply linkInvA_append
              | apply linkInvA_ensureNl
              | apply linkInvA_ite)
          repeat first
            | exact h2
            | apply linkInvA_append
            | apply linkInvA_ensureNl
            | apply linkInvA_ite
      · split at h
        · cases h
        · rename_i st2 heq
          cases h
          have h2 := ihL _ _ _ hkids heq (by
            repeat first
              | exact hi
              | apply linkInvA_append
              | apply linkInvA_ensureNl
              | apply linkInvA_ite)
          repeat first
            | exact h2
            | apply linkInvA_append
            | apply linkInvA_ensureNl
            | apply linkInvA_ite
      · split at h
        · cases h
        · rename_i st2 heq
          cases h
          have h2 := ihL _ _ _ hkids heq (by
            repeat first
              | exact hi
              | apply linkInvA_append
              | apply linkInvA_ensureNl
              | apply linkInvA_ite)
          repeat first
            | exact h2
            | apply linkInvA_append
            | apply linkInvA_ensureNl
            | apply linkInvA_ite
      · cases h
        repeat first
          | exact hi
          | apply linkInvA_append
          | apply linkInvA_ensureNl
          | apply linkInvA_ite
      · cases h
        repeat first
          | exact hi
          | apply linkInvA_append
          | apply linkInvA_ensureNl
          | apply linkInvA_ite
      · split at h
        · cases h
        · rename_i st2 heq
          cases h
          have h2 := ihL _ _ _ hkids heq (by
            repeat first
              | exact hi
              | apply linkInvA_append
              | apply linkInvA_ensureNl
              | apply linkInvA_ite)
          repeat first
            | exact h2
            | apply linkInvA_append
            | apply linkInvA_ensureNl
            | apply linkInvA_ite
      · split at h
        · cases h
        · rename_i st2 heq
          cases h
          have h2 := ihL _ _ _ hkids heq (by
            repeat first
              | exact hi
              | apply linkInvA_append
              | apply linkInvA_ensureNl
              | apply linkInvA_ite)
          repeat first
            | exact h2
            | apply linkInvA_append
            | apply linkInvA_ensureNl
            | apply linkInvA_ite
      · split at h
        · cases h
        · rename_i st2 heq
          cases h
          have h2 := ihL _ _ _ hkids heq (by
            repeat first
              | exact hi
              | apply linkInvA_append
              | apply linkInvA_ensureNl
              | apply linkInvA_ite)
          repeat first
            | exact h2
            | apply linkInvA_append
            | apply linkInvA_ensureNl
            | apply linkInvA_ite
      · split at h
        · cases h
        · rename_i st2 heq
          cases h
          have h2 := ihL _ _ _ hkids heq (by
            repeat first
              | exact hi
              | apply linkInvA_append
              | apply linkInvA_ensureNl
              | apply linkInvA_ite)
          repeat first
            | exact h2
            | apply linkInvA_append
            | apply linkInvA_ensureNl
            | apply linkInvA_ite
      · split at h
        · cases h
        · rename_i st2 heq
          cases h
          have h2 := ihL _ _ _ hkids heq (by
            repeat first
              | exact hi
              | apply linkInvA_append
              | apply linkInvA_ensureNl
              | apply linkInvA_ite)
          repeat first
            | exact h2
            | apply linkInvA_append
            | apply linkInvA_ensureNl
            | apply linkInvA_ite
      · split at h
        · cases h
        · rename_i st2 heq
          cases h
          have h2 := ihL _ _ _ hkids heq (by
            repeat first
              | exact hi
              | apply linkInvA_append
              | apply linkInvA_ensureNl
              | apply linkInvA_ite)
          repeat first
            | exact h2
            | apply linkInvA_append
            | apply linkInvA_ensureNl
            | apply linkInvA_ite
      · split at h
        · cases h
        · rename_i st2 heq
          cases h
          have h2 := ihL _ _ _ hkids heq (by
            repeat first
              | exact hi
              | apply linkInvA_append
              | apply linkInvA_ensureNl
              | apply linkInvA_ite)
          repeat first
            | exact h2
            | apply linkInvA_append
            | apply linkInvA_ensureNl
            | apply linkInvA_ite
      · split at h
        · cases h
        · rename_i st2 heq
          cases h
          have h2 := ihL _ _ _ hkids heq (by
            repeat first
              | exact hi
              | apply linkInvA_append
              | apply linkInvA_ensureNl
              | apply linkInvA_ite)
          repeat first
            | exact h2
            | apply linkInvA_append
            | apply linkInvA_ensureNl
            | apply linkInvA_ite
      · split at h
        · exact ihL _ _ _ hkids h hi
        · split at h
          · cases h
          · rename_i st2 heq
            cases h
            have h2 := ihL _ _ _ hkids heq (by
              repeat first
                | exact hi
                | apply linkInvA_append
                | apply linkInvA_ensureNl
                | apply linkInvA_ite)
            repeat first
              | exact h2
              | apply linkInvA_append
              | apply linkInvA_ensureNl
              | apply linkInvA_ite
      · split at h
        · cases h
        · rename_i st2 heq
          cases h
          have h2 := ihL _ _ _ hkids heq (by
            repeat first
              | exact hi
              | apply linkInvA_append
              | apply linkInvA_ensureNl
              | apply linkInvA_ite)
          repeat first
            | exact h2
            | apply linkInvA_append
            | apply linkInvA_ensureNl
            | apply linkInvA_ite
      · split at h
        · cases h
          exact linkInvA_link _ _ _ _ _ hi
        · exact ihL _ _ _ hkids h hi
      · split at h
        · cases h
          repeat first
            | exact hi
            | apply linkInvA_append
            | apply linkInvA_ensureNl
            | apply linkInvA_ite
        · cases h
          repeat first
            | exact hi
            | apply linkInvA_append
            | apply linkInvA_ensureNl
            | apply linkInvA_ite
      · split at h
        · cases h
        · rename_i st2 heq
          cases h
          have h2 := ihL _ _ _ hkids heq (by
            repeat first
              | exact hi
              | apply linkInvA_append
              | apply linkInvA_ensureNl
              | apply linkInvA_ite)
          repeat first
            | exact h2
            | apply linkInvA_append
            | apply linkInvA_ensureNl
            | apply linkInvA_ite
      · split at h
        · cases h
        · rename_i st2 heq
          cases h
          have h2 := ihL _ _ _ hkids heq (by
            repeat first
              | exact hi
              | apply linkInvA_append
              | apply linkInvA_ensureNl
              | apply linkInvA_ite)
          repeat first
            | exact h2
            | apply linkInvA_append
            | apply linkInvA_ensureNl
            | apply linkInvA_ite
      · split at h
        · split at h
          · refine ihL _ _ _ hkids h ?_
            repeat first
              | exact hi
              | apply linkInvA_append
              | apply linkInvA_ensureNl
              | apply linkInvA_ite
          · refine ihL _ _ _ hkids h ?_
            repeat first
              | exact hi
              | apply linkInvA_append
              | apply linkInvA_ensureNl
              | apply linkInvA_ite
        · refine ihL _ _ _ hkids h ?_
          repeat first
            | exact hi
            | apply linkInvA_append
            | apply linkInvA_ensureNl
            | apply linkInvA_ite
      · cases h
        repeat first
          | exact hi
          | apply linkInvA_append
          | apply linkInvA_ensureNl
          | apply linkInvA_ite
      · exact absurd rfl htag
      · split at h
        · cases h
          repeat first
            | exact hi
            | apply linkInvA_append
            | apply linkInvA_ensureNl
            | apply linkInvA_ite
        · cases h
          repeat first
            | exact hi
            | apply linkInvA_append
            | apply linkInvA_ensureNl
            | apply linkInvA_ite
      · split at h
        · cases h
          repeat first
            | exact hi
            | apply linkInvA_append
            | apply linkInvA_ensureNl
            | apply linkInvA_ite
        · cases h
          repeat first
            | exact hi
            | apply linkInvA_append
            | apply linkInvA_ensureNl
            | apply linkInvA_ite
      · split at h
        · cases h
          repeat first
            | exact hi
            | apply linkInvA_append
            | apply linkInvA_ensureNl
            | apply linkInvA_ite
        · cases h
          repeat first
            | exact hi
            | apply linkInvA_append
            | apply linkInvA_ensureNl
            | apply linkInvA_ite
      · split at h
        · cases h
        · rename_i st2 heq
          cases h
          have h2 := ihL _ _ _ hkids heq (by
            repeat first
              | exact hi
              | apply linkInvA_append
              | apply linkInvA_ensureNl
              | apply linkInvA_ite)
          repeat first
            | exact h2
            | apply linkInvA_append
            | apply linkInvA_ensureNl
            | apply linkInvA_ite
      · split at h
        · cases h
          exact hi
        · split at h
          · cases h
            repeat first
              | exact hi
              | apply linkInvA_append
              | apply linkInvA_ensureNl
              | apply linkInvA_ite
          · split at h
            · cases h
              repeat first
                | exact hi
                | apply linkInvA_append
                | apply linkInvA_ensureNl
                | apply linkInvA_ite
            · cases h
              repeat first
                | exact hi
                | apply linkInvA_append
                | apply linkInvA_ensureNl
                | apply linkInvA_ite
      · cases h
        repeat first
          | exact hi
          | apply linkInvA_append
          | apply linkInvA_ensureNl
          | apply linkInvA_ite
      · cases h
        repeat first
          | exact hi
          | apply linkInvA_append
          | apply linkInvA_ensureNl
          | apply linkInvA_ite
      · cases h
        repeat first
          | exact hi
          | apply linkInvA_append
          | apply linkInvA_ensureNl
          | apply linkInvA_ite
      · exact ihL _ _ _ hkids h hi
      · exact ihL _ _ _ hkids h hi
    · intro st ns st' htf h hi
      cases ns with
      | nil =>
        rw [convNodesF] at h
        cases h
        exact hi
      | cons n ns2 =>
        rw [convNodesF] at h
        rw [tableFreeList] at htf
        simp only [Bool.and_eq_true] at htf
        cases hc : convNodeF base fuel st n with
        | none => rw [hc] at h; cases h
        | some st2 =>
          rw [hc] at h
          exact ihL st2 ns2 st' htf.2 h (ihN st n st2 htf.1 hc hi)
/-- A table whose single td cell holds an anchor. -/
def c2tableDoc : HNode :=
  HNode.elem "table" [] [HNode.elem "tr" [] [HNode.elem "td" []
    [HNode.elem "a" [("href", strL "https://e.x/")] [HNode.text (strL "Click")]]]]

/-- C2 counterexample: markdown.rs renders each td into a temporary cell
buffer whose links list is shared with the outer state, so the anchor inside
the cell records position 0 (the length of the empty cell buffer) while the
raw output buffer at index 0 holds the newline emitted before the table: the
recorded position does not point at the link's opening bracket. -/
theorem C2_counterexample :
    (htmlToMarkdownRawF c4base 30 [c2tableDoc]).map
        (fun st => (st.links.map (fun l => l.position), st.out[0]?))
      = some ([0], some '\n') ∧
    tableFree c2tableDoc = false := by
  constructor
  · rfl
  · rfl

/-- C2 (amended): in the accessibility renderer every recorded link position
points at the literal opening bracket of its span in the raw (pre-cleanup)
output buffer, for every tree; the HTML renderer guarantees the same for
every fragment containing no table element.  (Inside a table cell the anchor
handler measures the temporary cell buffer, so the property fails there —
see the counterexample.) -/
theorem C2_link_positions (t : AXTree) (base : BaseUrl) (fuelA fuelH : Nat)
    (roots : List HNode) (stA : AxSt) (stH : HSt)
    (hA : axConvertRawF t fuelA = some stA)
    (hT : tableFreeList roots = true)
    (hH : htmlToMarkdownRawF base fuelH roots = some stH) :
    LinkInvA stA.out stA.links ∧ LinkInvA stH.out stH.links := by
  constructor
  · have h0 : LinkInvA axSt0.out axSt0.links := by
      intro l hl
      simp [axSt0] at hl
    unfold axConvertRawF at hA
    cases hroot : t.rootNode with
    | none =>
      rw [hroot] at hA
      simp only [] at hA
      cases hA
      exact h0
    | some root =>
      rw [hroot] at hA
      simp only [] at hA
      exact convertNodeF_linkInv t fuelA axSt0 root stA hA h0
  · have h0 : LinkInvA hSt0.out hSt0.links := by
      intro l hl
      simp [hSt0] at hl
    unfold htmlToMarkdownRawF at hH
    exact (htmlInvAux base fuelH).2.2 hSt0 roots stH hT hH h0

def w2link : AXNode :=
  { nodeId := "lk", role := "link", name := some (strL "Click"), value := none,
    description := none, level := none, url := some (strL "https://e.x/"),
    focused := false, ignored := false, childIds := [], properties := [] }

def w2root : AXNode :=
  { nodeId := "r", role := "RootWebArea", name := none, value := none,
    description := none, level := none, url := none, focused := false,
    ignored := false, childIds := ["lk"], properties := [] }

def w2tree : AXTree :=
  { nodes := [("r", w2root), ("lk", w2link)], rootId := some "r" }

/-- The state the accessibility converter reaches on `w2tree`. -/
def w2st : AxSt :=
  { out := strL "[Click](https://e.x/)",
    links := [{ text := strL "Click", url := strL "https://e.x/", position := 0 }],
    listDepth := 0, listCounters := [], inCodeBlock := false,
    lastWasBlock := false }

def w2doc : HNode :=
  HNode.elem "p" []
    [HNode.elem "a" [("href", strL "https://e.x/")] [HNode.text (strL "Go")]]

/-- The state the HTML converter reaches on `[w2doc]`. -/
def w2hst : HSt :=
  { out := strL "\n\n[Go](https://e.x/)\n\n",
    links := [{ text := strL "Go", url := strL "https://e.x/", position := 2 }],
    ctx := ctx0 }

theorem C2_link_positions_witness :
    (axConvertRawF w2tree 10 = some w2st ∧ tableFreeList [w2doc] = true ∧
      htmlToMarkdownRawF c4base 10 [w2doc] = some w2hst) ∧
    (LinkInvA w2st.out w2st.links ∧ LinkInvA w2hst.out w2hst.links) :=
  ⟨⟨by decide, by decide, by decide⟩,
    C2_link_positions w2tree c4base 10 10 [w2doc] w2st w2hst
      (by decide) (by decide) (by decide)⟩
